import Mathlib

/-!
Verification of the webpod scanning/caching/device-sync core.

The Python sources under `webpod/` are shallowly embedded below:
pure helpers become Lean functions, the SQLite library cache becomes an
explicit `LibDB` value threaded through the operations, the filesystem,
the tag extractor (mutagen), the artwork collaborator and the transcode
collaborator become fields of an `Env` record, and exceptions become
`Except PyExc`.  Machine integers are `Nat` with explicit `% 2 ^ 32`
where Python would overflow (`struct.pack("<L", ...)`), and SQLite
`REAL` modification times are modelled as exact rationals.
-/

set_option maxRecDepth 100000

namespace WebPod

instance exceptDecEq {ε α : Type} [DecidableEq ε] [DecidableEq α] :
    DecidableEq (Except ε α) := fun a b =>
  match a, b with
  | .error e, .error f =>
    if h : e = f then .isTrue (congrArg Except.error h)
    else .isFalse (fun hc => h (by injection hc))
  | .ok x, .ok y =>
    if h : x = y then .isTrue (congrArg Except.ok h)
    else .isFalse (fun hc => h (by injection hc))
  | .error _, .ok _ => .isFalse (fun hc => Except.noConfusion hc)
  | .ok _, .error _ => .isFalse (fun hc => Except.noConfusion hc)

/-- Python exception kinds that the embedded code can raise. -/
inductive PyExc where
  | osError
  | structError
  | valueError
  | ipodError (msg : String)
deriving DecidableEq

/-- Python values that flow into the settings table (`models.set_setting`). -/
inductive PyVal where
  | vNone
  | vInt (n : Int)
  | vStr (s : String)
  | vBool (b : Bool)
deriving DecidableEq

/-- Python truthiness for the values above (`if value:`). -/
def PyVal.truthy : PyVal → Bool
  | .vNone => false
  | .vInt n => n != 0
  | .vStr s => s != ""
  | .vBool b => b

/-- Python `str()` for the values above. -/
def PyVal.pyStr : PyVal → String
  | .vNone => "None"
  | .vInt n => toString n
  | .vStr s => s
  | .vBool true => "True"
  | .vBool false => "False"

/-- Truthiness of an optional string field of a row/metadata dict
(`None` and `''` are falsy). -/
def optStrTruthy : Option String → Bool
  | none => false
  | some s => s != ""

/-- Truthiness of an optional integer field (`None` and `0` are falsy). -/
def optIntTruthy : Option Int → Bool
  | none => false
  | some n => n != 0

/-! ## SHA-1 (duplicate_detector.py depends on hashlib.sha1) -/

/-- 2^32, the modulus of 32-bit arithmetic used throughout SHA-1. -/
def M32 : Nat := 4294967296

/-- Rotate a 32-bit word left by `s` bits. -/
def rotl32 (s x : Nat) : Nat := ((x <<< s) % M32) ||| (x >>> (32 - s))

/-- Big-endian 32-bit word from four bytes. -/
def beWord (b0 b1 b2 b3 : Nat) : Nat :=
  (b0 % 256) * 16777216 + (b1 % 256) * 65536 + (b2 % 256) * 256 + b3 % 256

/-- Big-endian 8-byte encoding of a (bit-)length. -/
def be64 (n : Nat) : List Nat :=
  [n >>> 56 % 256, n >>> 48 % 256, n >>> 40 % 256, n >>> 32 % 256,
   n >>> 24 % 256, n >>> 16 % 256, n >>> 8 % 256, n % 256]

/-- SHA-1 message padding: append 0x80, zeros to 56 mod 64, then the
bit length, big-endian. -/
def sha1Pad (msg : List Nat) : List Nat :=
  let L := msg.length
  let k := (119 - L % 64) % 64
  msg ++ [128] ++ List.replicate k 0 ++ be64 (8 * L)

/-- Split a byte list into 64-byte chunks (fuel-driven so that it reduces
in the kernel). -/
def chunks64Go : Nat → List Nat → List (List Nat)
  | 0, _ => []
  | _, [] => []
  | fuel + 1, l => l.take 64 :: chunks64Go fuel (l.drop 64)

/-- Split a byte list into 64-byte chunks. -/
def chunks64 (l : List Nat) : List (List Nat) := chunks64Go (l.length / 64 + 1) l

/-- The 16 big-endian words of a 64-byte block. -/
def blockWords : List Nat → List Nat
  | b0 :: b1 :: b2 :: b3 :: rest => beWord b0 b1 b2 b3 :: blockWords rest
  | _ => []

/-- Extend the 16 block words to 80 by `w[i] = rotl1 (w[i-3]^w[i-8]^w[i-14]^w[i-16])`. -/
def sha1Extend : Nat → List Nat → List Nat
  | 0, w => w
  | n + 1, w =>
    let i := w.length
    let t := rotl32 1 ((((w.getD (i - 3) 0) ^^^ (w.getD (i - 8) 0)) ^^^
                        (w.getD (i - 14) 0)) ^^^ (w.getD (i - 16) 0))
    sha1Extend n (w ++ [t])

/-- The state of the SHA-1 compression function. -/
structure Sha1State where
  a : Nat
  b : Nat
  c : Nat
  d : Nat
  e : Nat
deriving DecidableEq

/-- One SHA-1 round: round index `i`, schedule word `wi`. -/
def sha1Step (i wi : Nat) (st : Sha1State) : Sha1State :=
  let f :=
    if i < 20 then (st.b &&& st.c) ||| ((st.b ^^^ 4294967295) &&& st.d)
    else if i < 40 then (st.b ^^^ st.c) ^^^ st.d
    else if i < 60 then ((st.b &&& st.c) ||| (st.b &&& st.d)) ||| (st.c &&& st.d)
    else (st.b ^^^ st.c) ^^^ st.d
  let k :=
    if i < 20 then 1518500249
    else if i < 40 then 1859775393
    else if i < 60 then 2400959708
    else 3395469782
  let temp := (rotl32 5 st.a + f + st.e + k + wi) % M32
  ⟨temp, st.a, rotl32 30 st.b, st.c, st.d⟩

/-- Run rounds `i, i+1, ...` for `fuel` steps over the schedule `w`. -/
def sha1Rounds (w : List Nat) : Nat → Nat → Sha1State → Sha1State
  | _, 0, st => st
  | i, fuel + 1, st => sha1Rounds w (i + 1) fuel (sha1Step i (w.getD i 0) st)

/-- Compress one 64-byte block into the running hash `(h0, .., h4)`. -/
def sha1Block (h : Sha1State) (block : List Nat) : Sha1State :=
  let w := sha1Extend 64 (blockWords block)
  let st := sha1Rounds w 0 80 h
  ⟨(h.a + st.a) % M32, (h.b + st.b) % M32, (h.c + st.c) % M32,
   (h.d + st.d) % M32, (h.e + st.e) % M32⟩

/-- SHA-1 of a byte list, as the five 32-bit hash words. -/
def sha1Words (msg : List Nat) : Sha1State :=
  (chunks64 (sha1Pad msg)).foldl sha1Block
    ⟨1732584193, 4023233417, 2562383102, 271733878, 3285377520⟩

/-- Lowercase hex digit: 0-9 map to '0'-'9', 10-15 to 'a'-'f'. -/
def hexChar (n : Nat) : Char :=
  if n % 16 < 10 then Char.ofNat (48 + n % 16) else Char.ofNat (87 + n % 16)

/-- Fixed-width lowercase hex rendering of a word (8 nibbles, big-endian). -/
def hex8 (x : Nat) : List Char :=
  [hexChar (x >>> 28), hexChar (x >>> 24), hexChar (x >>> 20), hexChar (x >>> 16),
   hexChar (x >>> 12), hexChar (x >>> 8), hexChar (x >>> 4), hexChar x]

/-- `hashlib.sha1(msg).hexdigest()`: the 40-character lowercase hex digest. -/
def sha1hex (msg : List Nat) : String :=
  String.mk (hex8 (sha1Words msg).a ++ hex8 (sha1Words msg).b ++ hex8 (sha1Words msg).c ++
             hex8 (sha1Words msg).d ++ hex8 (sha1Words msg).e)

/-! ## Filesystem and collaborator environment -/

/-- A file on disk: its byte content and its modification time.
`os.path.getsize` is the content length; `st_mtime` (a float in Python)
is modelled as an exact rational. -/
structure PyFile where
  content : List Nat
  mtime : ℚ
deriving DecidableEq

/-- The normalized metadata record produced by `_extract_metadata`
(webpod/library_scanner.py), including the title-falls-back-to-filename
step.  The container-specific tag mapping itself (mutagen) is the
Metadata Extractor collaborator, so the whole function is a field of
`Env`; no claim depends on its internals. -/
structure Meta where
  title : Option String
  artist : Option String
  album : Option String
  album_artist : Option String
  genre : Option String
  track_nr : Option Int
  cd_nr : Option Int
  year : Option Int
  duration_ms : Option Int
  bitrate : Option Int
deriving DecidableEq

/-- External world of the embedded code: the filesystem, the tag
extractor, the artwork collaborator (`(has_artwork, artwork_hash)`),
the file enumeration produced by `os.walk` under the scan root, the
transcode collaborator and static device facts. -/
structure Env where
  fs : String → Option PyFile
  extract : String → Option Meta
  artwork : String → Bool × Option String
  rootIsDir : Bool
  walkFiles : List String
  transcode : String → String → Option String
  supportsVideo : Bool

/-- `duplicate_detector.sha1_hash`: SHA-1 of
`struct.pack("<L", filesize) + first 16384 bytes`.  A missing or
unreadable file raises `OSError`; `struct.pack("<L", size)` raises
`struct.error` when the size does not fit 32 bits. -/
def packUInt32LE (n : Nat) : List Nat :=
  [n % 256, n / 256 % 256, n / 65536 % 256, n / 16777216 % 256]

/-- `duplicate_detector.sha1_hash` (webpod/duplicate_detector.py, lines 8-23). -/
def sha1_hash (env : Env) (filename : String) : Except PyExc String :=
  match env.fs filename with
  | none => .error .osError
  | some f =>
    if f.content.length < 4294967296 then
      .ok (sha1hex (packUInt32LE f.content.length ++ f.content.take 16384))
    else .error .structError

/-! ## Local Cache Store (webpod/models.py) -/

/-- One row of the `library_tracks` table.  The schema (models.py lines
10-47 plus the single migration) has no `is_video` column. -/
structure Row where
  id : Nat
  file_path : String
  file_mtime : ℚ
  sha1_hash : String
  title : Option String
  artist : Option String
  album : Option String
  album_artist : Option String
  genre : Option String
  track_nr : Option Int
  cd_nr : Option Int
  year : Option Int
  duration_ms : Option Int
  bitrate : Option Int
  has_artwork : Int
  artwork_hash : Option String
  is_podcast : Int
deriving DecidableEq

/-- The SQLite database: the `library_tracks` table, its AUTOINCREMENT
counter, and the `settings` key/value table. -/
structure LibDB where
  rows : List Row
  nextId : Nat
  settings : List (String × Option String)
deriving DecidableEq

/-- `models.get_setting`: a missing row and a stored SQL NULL are both
reported as `None`. -/
def get_setting (db : LibDB) (key : String) : Option String :=
  match db.settings.find? (fun p => p.1 == key) with
  | some p => p.2
  | none => none

/-- `models.set_setting`: `INSERT OR REPLACE` of
`str(value) if value else None`. -/
def set_setting (db : LibDB) (key : String) (value : PyVal) : LibDB :=
  let stored := if value.truthy then some value.pyStr else none
  { db with settings :=
      if db.settings.any (fun p => p.1 == key) then
        db.settings.map (fun p => if p.1 == key then (key, stored) else p)
      else db.settings ++ [(key, stored)] }

/-- The dict built by `process_single_file` and passed to
`models.upsert_track`.  It carries an `is_video` key even though the
table has no such column. -/
structure TrackData where
  file_path : String
  file_mtime : ℚ
  sha1_hash : String
  has_artwork : Int
  artwork_hash : Option String
  is_podcast : Int
  is_video : Int
  meta : Meta
deriving DecidableEq

/-- `models.upsert_track` (models.py lines 129-150): `INSERT OR REPLACE`
keyed on the UNIQUE `file_path`.  The INSERT names exactly the sixteen
schema columns, so the `is_video` entry of the dict is ignored (sqlite3
ignores surplus named parameters), and the replacing row receives a
fresh AUTOINCREMENT id.  `rowOfTd` is the row the INSERT produces. -/
def rowOfTd (id : Nat) (td : TrackData) : Row :=
  { id := id
    file_path := td.file_path
    file_mtime := td.file_mtime
    sha1_hash := td.sha1_hash
    title := td.meta.title
    artist := td.meta.artist
    album := td.meta.album
    album_artist := td.meta.album_artist
    genre := td.meta.genre
    track_nr := td.meta.track_nr
    cd_nr := td.meta.cd_nr
    year := td.meta.year
    duration_ms := td.meta.duration_ms
    bitrate := td.meta.bitrate
    has_artwork := td.has_artwork
    artwork_hash := td.artwork_hash
    is_podcast := td.is_podcast }

def upsert_track (db : LibDB) (td : TrackData) : LibDB :=
  { db with
    rows := db.rows.filter (fun r => r.file_path != td.file_path) ++ [rowOfTd db.nextId td]
    nextId := db.nextId + 1 }

/-- Python `dict(row).get(key)` on a fetched `library_tracks` row: the
keys are exactly the schema columns, so any other key yields `None`. -/
def Row.get (r : Row) (k : String) : Option PyVal :=
  match k with
  | "id" => some (.vInt r.id)
  | "file_path" => some (.vStr r.file_path)
  | "sha1_hash" => some (.vStr r.sha1_hash)
  | "title" => some (r.title.elim .vNone .vStr)
  | "artist" => some (r.artist.elim .vNone .vStr)
  | "album" => some (r.album.elim .vNone .vStr)
  | "album_artist" => some (r.album_artist.elim .vNone .vStr)
  | "genre" => some (r.genre.elim .vNone .vStr)
  | "track_nr" => some (r.track_nr.elim .vNone .vInt)
  | "cd_nr" => some (r.cd_nr.elim .vNone .vInt)
  | "year" => some (r.year.elim .vNone .vInt)
  | "duration_ms" => some (r.duration_ms.elim .vNone .vInt)
  | "bitrate" => some (r.bitrate.elim .vNone .vInt)
  | "has_artwork" => some (.vInt r.has_artwork)
  | "artwork_hash" => some (r.artwork_hash.elim .vNone .vStr)
  | "is_podcast" => some (.vInt r.is_podcast)
  | _ => none

/-- `models.get_cached_mtime` (models.py lines 153-163). -/
def get_cached_mtime (db : LibDB) (file_path : String) : Option ℚ :=
  (db.rows.find? (fun r => r.file_path == file_path)).map (fun r => r.file_mtime)

/-- `models.get_tracks_by_ids` (models.py lines 269-280). -/
def get_tracks_by_ids (db : LibDB) (ids : List Nat) : List Row :=
  db.rows.filter (fun r => ids.contains r.id)

/-- `models.remove_missing_files` (models.py lines 306-316): delete the
rows whose `file_path` no longer exists; returns the number removed. -/
def remove_missing_files (env : Env) (db : LibDB) : LibDB × Nat :=
  let missing := db.rows.filter (fun r => (env.fs r.file_path).isNone)
  ({ db with rows := db.rows.filter (fun r => (env.fs r.file_path).isSome) },
   missing.length)

/-- The `has_metadata` test of `process_single_file`
(library_scanner.py lines 255-262), applied to an extracted record:
Python truthiness of artist/album/album_artist/genre/year/track_nr. -/
def metaHasMeta (m : Meta) : Bool :=
  optStrTruthy m.artist || optStrTruthy m.album || optStrTruthy m.album_artist ||
  optStrTruthy m.genre || optIntTruthy m.year || optIntTruthy m.track_nr

/-- The same identifying-metadata test applied to a cached row. -/
def rowHasMeta (r : Row) : Bool :=
  optStrTruthy r.artist || optStrTruthy r.album || optStrTruthy r.album_artist ||
  optStrTruthy r.genre || optIntTruthy r.year || optIntTruthy r.track_nr

/-- Modelled from the spec: `models.remove_files_without_metadata_if_disabled`
is called by `scan_directory` (library_scanner.py line 346) but is absent
from the sources; only its caller exists.  Per the spec (§4.3): "if the
allow-without-metadata setting is currently disabled — purge any
previously-cached rows that have no identifying metadata (lazy cleanup of
stale permissive-mode entries)".  Permissive-mode entries are non-podcast
rows (podcasts are always allowed through regardless of the setting), so
podcast rows are not purged.  Returns the number of rows removed. -/
def remove_files_without_metadata_if_disabled (db : LibDB) : LibDB × Nat :=
  if get_setting db "allow_files_without_metadata" ≠ some "1" then
    let keep := fun (r : Row) => r.is_podcast != 0 || rowHasMeta r
    ({ db with rows := db.rows.filter keep },
     (db.rows.filter (fun r => !keep r)).length)
  else (db, 0)

/-- Modelled from the spec: `models.check_duplicate_hash` is called by
`library_upload` (app.py line 291) but is absent from the sources; only
its caller exists.  Per the spec (§4.4): a "full-table duplicate-hash
lookup for upload dedup" — it returns a cached row whose fingerprint
equals the given hash, if any. -/
def check_duplicate_hash (db : LibDB) (h : String) : Option Row :=
  db.rows.find? (fun r => r.sha1_hash == h)

/-! ## Directory Scanner (webpod/library_scanner.py) -/

/-- Lowercase a string, as Python `str.lower()` on ASCII names. -/
def strLower (s : String) : String := String.mk (s.data.map Char.toLower)

/-- Split a character list on a separator (like `str.split`). -/
def splitOnChar (sep : Char) : List Char → List (List Char)
  | [] => [[]]
  | c :: rest =>
    match splitOnChar sep rest with
    | [] => [[]]
    | h :: t => if c = sep then [] :: h :: t else (c :: h) :: t

/-- `pathlib.Path(name).suffix`: the final extension of the last path
component, including the dot; empty for no dot, a leading dot only, or a
trailing dot. -/
def pathSuffix (p : String) : String :=
  let base := (splitOnChar '/' p.data).getLastD []
  let parts := splitOnChar '.' base
  if parts.length ≤ 1 then ""
  else if parts.getLastD [] = [] then ""
  else if parts.headD ['x'] = [] ∧ parts.length = 2 then ""
  else String.mk ('.' :: parts.getLastD [])

/-- `SUPPORTED_EXTENSIONS` (library_scanner.py line 16). -/
def SUPPORTED_EXTENSIONS : List String := [".mp3", ".m4a", ".aac", ".mp4", ".flac", ".wav"]

/-- `VIDEO_EXTENSIONS` (library_scanner.py line 17). -/
def VIDEO_EXTENSIONS : List String := [".m4v", ".mov"]

/-- Outcome of `process_single_file`: the returned status dict. -/
inductive ProcStatus where
  | added (td : TrackData)
  | skippedNoMeta
  | errorStat
  | errorParse
  | errorHash
deriving DecidableEq

/-- The `track_data` dict that `process_single_file` builds (lines
280-289): path, mtime, fingerprint, artwork flag and reference, the two
classification flags, and the extracted metadata fields. -/
def scanTrackData (env : Env) (p : String) (f : PyFile) (meta : Meta)
    (is_podcast is_video : Bool) (h : String) : TrackData :=
  { file_path := p
    file_mtime := f.mtime
    sha1_hash := h
    has_artwork := if (env.artwork p).1 then 1 else 0
    artwork_hash := (env.artwork p).2
    is_podcast := if is_podcast then 1 else 0
    is_video := if is_video then 1 else 0
    meta := meta }

/-- `library_scanner.process_single_file` (lines 231-292): stat, extract
metadata, apply the allow-without-metadata policy (podcasts always pass),
fingerprint, fetch artwork, and upsert the cache row.  Only `OSError`
from hashing is caught; a `struct.error` (file size over 32 bits)
propagates. -/
def process_single_file (env : Env) (db : LibDB) (p : String)
    (is_podcast is_video : Bool) : Except PyExc (LibDB × ProcStatus) :=
  match env.fs p with
  | none => .ok (db, .errorStat)
  | some f =>
    match env.extract p with
    | none => .ok (db, .errorParse)
    | some meta =>
      if !metaHasMeta meta && !is_podcast &&
         get_setting db "allow_files_without_metadata" ≠ some "1" then
        .ok (db, .skippedNoMeta)
      else
        match sha1_hash env p with
        | .error .osError => .ok (db, .errorHash)
        | .error e => .error e
        | .ok h =>
          .ok (upsert_track db (scanTrackData env p f meta is_podcast is_video h),
               .added (scanTrackData env p f meta is_podcast is_video h))

/-- A call to the scan progress callback: `(scanned, total, message)`. -/
abbrev Event := Nat × Nat × String

/-- The per-file loop of `scan_directory` (lines 321-340).  State:
remaining files, `scanned` counter, database, emitted progress events,
and a count of Cache Store mutations (row upserts) performed so far. -/
def walkLoop (env : Env) (is_podcast is_video : Bool) (total : Nat) :
    List String → Nat → LibDB → List Event → Nat →
    Except PyExc (LibDB × List Event × Nat)
  | [], _, db, evs, muts => .ok (db, evs, muts)
  | p :: rest, scanned0, db, evs, muts =>
    let scanned := scanned0 + 1
    match env.fs p with
    | none => walkLoop env is_podcast is_video total rest scanned db evs muts
    | some f =>
      let skip : Bool := match get_cached_mtime db p with
        | some c => decide (|c - f.mtime| < 1 / 100)
        | none => false
      if skip then
        let evs := if scanned % 10 = 0 then evs ++ [(scanned, total, p)] else evs
        walkLoop env is_podcast is_video total rest scanned db evs muts
      else
        match process_single_file env db p is_podcast is_video with
        | .error e => .error e
        | .ok (db', st) =>
          let muts := muts + (match st with | .added _ => 1 | _ => 0)
          let evs := if scanned % 10 = 0 then evs ++ [(scanned, total, p)] else evs
          walkLoop env is_podcast is_video total rest scanned db' evs muts

/-- The result of a completed `scan_directory` run: the final database,
the progress events delivered to the callback, and the total number of
Cache Store mutations (upserts plus deletions). -/
structure ScanOut where
  db : LibDB
  events : List Event
  muts : Nat
deriving DecidableEq

/-- The files `scan_directory` will process: the walk enumeration
filtered by the classification's extension set (lines 308-316). -/
def scanFiles (env : Env) (is_video : Bool) : List String :=
  env.walkFiles.filter (fun p =>
    (if is_video then VIDEO_EXTENSIONS else SUPPORTED_EXTENSIONS).contains
      (strLower (pathSuffix p)))

/-- `library_scanner.scan_directory` (lines 295-352): validate the root,
enumerate and filter files, run the incremental walk, remove rows for
vanished files, run the (spec-modelled) no-metadata purge, and emit the
final progress signals.  The progress callback is modelled as always
present, its calls collected in order. -/
def scan_directory (env : Env) (db : LibDB) (is_podcast is_video : Bool) :
    Except PyExc ScanOut :=
  if !env.rootIsDir then .error .valueError
  else
    let files := scanFiles env is_video
    let total := files.length
    match walkLoop env is_podcast is_video total files 0 db [] 0 with
    | .error e => .error e
    | .ok (db1, evs, muts) =>
      let (db2, missing) := remove_missing_files env db1
      let (db3, removed) := remove_files_without_metadata_if_disabled db2
      let evs := if removed > 0 then
          evs ++ [(total, total, "Removed " ++ toString removed ++ " files without metadata")]
        else evs
      .ok ⟨db3, evs ++ [(total, total, "Done")], muts + missing + removed⟩

/-! ## Upload ingestion (webpod/app.py, `library_upload` lines 265-338) -/

/-- Per-file outcome of the upload loop. -/
inductive UploadOutcome where
  | unsupported (ext : String)
  | readFailed
  | duplicate (existing_title existing_artist : Option String)
  | added (title artist album : Option String)
  | processFailed
deriving DecidableEq

/-- One iteration of the `library_upload` loop for a single uploaded
file (app.py lines 265-338).  The flask upload save and the
`shutil.move` are represented by the `tmp_path` / `dest_path` parameters
into the environment's file system (the temp save is assumed to have
succeeded; after the move the destination holds the uploaded bytes).
Unsupported extensions are rejected; the fingerprint of the saved bytes
is checked against the cache with the full-table duplicate lookup; a hit
is reported as a duplicate without touching the store; otherwise the
file is ingested through `process_single_file`. -/
def library_upload_one (env : Env) (db : LibDB) (filename tmp_path dest_path : String) :
    Except PyExc (LibDB × UploadOutcome) :=
  let ext := strLower (pathSuffix filename)
  if !SUPPORTED_EXTENSIONS.contains ext then .ok (db, .unsupported ext)
  else
    match sha1_hash env tmp_path with
    | .error .osError => .ok (db, .readFailed)
    | .error e => .error e
    | .ok h =>
      match check_duplicate_hash db h with
      | some existing => .ok (db, .duplicate existing.title existing.artist)
      | none =>
        match process_single_file env db dest_path false false with
        | .error e => .error e
        | .ok (db', .added td) => .ok (db', .added td.meta.title td.meta.artist td.meta.album)
        | .ok (db', _) => .ok (db', .processFailed)

/-! ## Device Session (webpod/ipod_manager.py)

The gpod catalog is the external device-catalog collaborator; it is
modelled as an explicit `Catalog` value owned by the `Manager`.  The
session lock serialises operations, so each operation is a plain state
transformer. -/

/-- A device track.  `userdata_sha1` is the user-defined-data slot that
libgpod's extended-info system fills with the content fingerprint;
`ipod_path` is the on-device file location (`track.ipod_filename()`). -/
structure DTrack where
  dbid : Nat
  title : Option String
  artist : Option String
  album : Option String
  userdata_sha1 : Option String
  mediatype : Nat
  ipod_path : Option String
deriving DecidableEq

/-- A device playlist. -/
structure DPlaylist where
  plid : Nat
  name : String
  master : Bool
  smart : Bool
  podcast : Bool
  members : List Nat
deriving DecidableEq

/-- The on-device catalog: tracks, playlists, and the id counter. -/
structure Catalog where
  tracks : List DTrack
  playlists : List DPlaylist
  nextId : Nat
deriving DecidableEq

/-- `IPodManager` connection state: `cat = none` is Disconnected. -/
structure Manager where
  cat : Option Catalog
  mountpoint : Option String
deriving DecidableEq

/-- `IPodManager._find_playlist`: lookup by id. -/
def find_playlist (cat : Catalog) (pid : Nat) : Option DPlaylist :=
  cat.playlists.find? (fun pl => pl.plid == pid)

/-- `IPodManager.rename_playlist` (ipod_manager.py lines 411-419).  The
pair form makes the state explicit: an exception leaves the manager
unchanged, since the raise happens before any mutation. -/
def rename_playlist (m : Manager) (pid : Nat) (new_name : String) :
    Manager × Except PyExc (Nat × String) :=
  match m.cat with
  | none => (m, .error (.ipodError "Not connected to an iPod"))
  | some cat =>
    match find_playlist cat pid with
    | none => (m, .error (.ipodError ("Playlist with id " ++ toString pid ++ " not found")))
    | some pl =>
      if pl.master then (m, .error (.ipodError "Cannot rename the master playlist"))
      else
        let pls := cat.playlists.map
          (fun q => if q.plid == pid then { q with name := new_name } else q)
        ({ m with cat := some { cat with playlists := pls } }, .ok (pid, new_name))

/-- `IPodManager.delete_playlist` (ipod_manager.py lines 421-428). -/
def delete_playlist (m : Manager) (pid : Nat) : Manager × Except PyExc Unit :=
  match m.cat with
  | none => (m, .error (.ipodError "Not connected to an iPod"))
  | some cat =>
    match find_playlist cat pid with
    | none => (m, .error (.ipodError ("Playlist with id " ++ toString pid ++ " not found")))
    | some pl =>
      if pl.master then (m, .error (.ipodError "Cannot delete the master playlist"))
      else
        let pls := cat.playlists.filter (fun q => q.plid != pid)
        ({ m with cat := some { cat with playlists := pls } }, .ok ())

/-- Truthiness of `dict.get(key)` (`None` for a missing key is falsy). -/
def optPyTruthy : Option PyVal → Bool
  | none => false
  | some v => v.truthy

/-- Python `x or default` over an optional string (empty string falls back). -/
def pyOrStr (o : Option String) (d : String) : String :=
  match o with
  | some s => if s != "" then s else d
  | none => d

/-- Modelled from the spec (§3 DeviceTrack): `gpod.Database.new_Track`
(device-catalog collaborator) creates a track from a file, extracting
tags device-side, and fills the user-defined-data slot with the file's
content fingerprint ("used to store the originating content fingerprint,
enabling duplicate detection purely from the device side") — the same
gtkpod fingerprint that `duplicate_detector.sha1_hash` computes.
Creation fails (raises) on an unreadable file. -/
def dev_new_Track (env : Env) (dbid : Nat) (path : String) : Option DTrack :=
  match env.fs path with
  | none => none
  | some _ =>
    let meta := env.extract path
    some
      { dbid := dbid
        title := meta.bind (fun mt => mt.title)
        artist := meta.bind (fun mt => mt.artist)
        album := meta.bind (fun mt => mt.album)
        userdata_sha1 := (sha1_hash env path).toOption
        mediatype := 0
        ipod_path := none }

/-- The accumulated result of `add_tracks`: `added` holds
`(title, artist)`, `skipped_duplicates` holds
`(file_path, title, artist, reason)`, `errors` holds
`(file_path, title, error)`. -/
structure AddResult where
  added : List (Option String × Option String)
  skipped_duplicates : List (String × Option String × Option String × String)
  errors : List (String × Option String × String)
deriving DecidableEq

/-- Loop state of `add_tracks`: the catalog being mutated, the
duplicate-fingerprint set (extended as the batch proceeds), and the
accumulated result. -/
structure AddState where
  cat : Catalog
  existing : List String
  res : AddResult
deriving DecidableEq

/-- The creation part of one `add_tracks` iteration (ipod_manager.py
lines 520-554), applied to the resolved file path (`None` when
transcoding was required and failed): device track creation (with the
dead `is_video` mediatype branch — the fetched row dict has no such
key), playlist attach, and extension of the fingerprint set.  Artwork
attachment is non-fatal and not represented in `DTrack`. -/
def addWithPath (env : Env) (target : Option Nat) (st : AddState) (t : Row) :
    Option String → AddState
  | none =>
    { st with res := { st.res with errors :=
        st.res.errors ++ [(t.file_path, t.title, "Transcoding failed")] } }
  | some path =>
    match dev_new_Track env st.cat.nextId path with
    | none =>
      { st with res := { st.res with errors :=
          st.res.errors ++ [(path, t.title, "Track creation failed")] } }
    | some tr =>
      let tr := if optPyTruthy (Row.get t "is_video") then { tr with mediatype := 2 } else tr
      let cat := { st.cat with tracks := st.cat.tracks ++ [tr], nextId := st.cat.nextId + 1 }
      let cat := match target with
        | some pid =>
          { cat with playlists := cat.playlists.map (fun pl =>
              if pl.plid == pid then { pl with members := pl.members ++ [tr.dbid] } else pl) }
        | none => cat
      { cat := cat
        existing := if t.sha1_hash != "" then st.existing ++ [t.sha1_hash] else st.existing
        res := { st.res with added := st.res.added ++ [(t.title, t.artist)] } }

/-- One iteration of the `add_tracks` candidate loop (ipod_manager.py
lines 479-554) for library row `t`: duplicate check against the current
fingerprint set, FLAC transcode gating, then the creation part. -/
def addStep (env : Env) (db : LibDB) (target : Option Nat) (st : AddState) (t : Row) :
    AddState :=
  if st.existing.contains t.sha1_hash then
    { st with res := { st.res with skipped_duplicates :=
        st.res.skipped_duplicates ++ [(t.file_path, t.title, t.artist, "Already on iPod")] } }
  else
    let isFlac := strLower (pathSuffix t.file_path) == ".flac"
    let doTranscode := isFlac && (get_setting db "transcode_flac_to_ipod" != some "0")
    addWithPath env target st t
      (if doTranscode then
        env.transcode t.file_path (pyOrStr (get_setting db "transcode_flac_format") "alac")
      else some t.file_path)

/-- `IPodManager.add_tracks` (ipod_manager.py lines 430-568): connection
check, batch-wide video-support check, initial duplicate-fingerprint set
from the device tracks' stored fingerprints, target playlist lookup, and
the candidate loop.  `db` supplies the settings read through
`models.get_setting`. -/
def add_tracks (env : Env) (db : LibDB) (m : Manager) (libTracks : List Row)
    (playlist_id : Option Nat) : Manager × Except PyExc AddResult :=
  match m.cat with
  | none => (m, .error (.ipodError "Not connected to an iPod"))
  | some cat =>
    let has_videos := libTracks.any (fun t => optPyTruthy (Row.get t "is_video"))
    if has_videos && !env.supportsVideo then
      (m, .error (.ipodError "This iPod does not support video playback."))
    else
      let existing0 := cat.tracks.filterMap (fun tr => tr.userdata_sha1)
      let run := fun (target : Option Nat) =>
        let fin := libTracks.foldl (addStep env db target) ⟨cat, existing0, ⟨[], [], []⟩⟩
        ({ m with cat := some fin.cat }, Except.ok fin.res)
      match playlist_id with
      | some pid =>
        match find_playlist cat pid with
        | none => (m, .error (.ipodError ("Playlist with id " ++ toString pid ++ " not found")))
        | some _ => run (some pid)
      | none => run none

/-! ## export_tracks (ipod_manager.py lines 625-725) -/

/-- The destination filesystem seen by the export: a finite map from
path to file size (`os.path.exists` / `os.path.getsize` / `copy2`). -/
abbrev EFS := List (String × Nat)

/-- `os.path.getsize`, `none` when the path does not exist. -/
def efsLookup (efs : EFS) (p : String) : Option Nat :=
  (efs.find? (fun q => q.1 == p)).map (fun q => q.2)

/-- `shutil.copy2 source dest`: afterwards `dest` has the source's size. -/
def efsInsert (efs : EFS) (p : String) (sz : Nat) : EFS :=
  if efs.any (fun q => q.1 == p) then
    efs.map (fun q => if q.1 == p then (p, sz) else q)
  else efs ++ [(p, sz)]

/-- `IPodManager._sanitize_filename` (lines 727-737): replace
`<>:"/\|?*` with `_`, strip spaces and dots, cap at 200 characters,
fall back to "Unknown". -/
def sanitizeName (name : String) : String :=
  let bad : List Char := ['<', '>', ':', '"', '/', '\\', '|', '?', '*']
  let cs := name.toList.map (fun c => if bad.contains c then '_' else c)
  let strip : List Char := [' ', '.']
  let cs := (cs.dropWhile (fun c => strip.contains c)).reverse
  let cs := ((cs.dropWhile (fun c => strip.contains c)).reverse).take 200
  if cs.isEmpty then "Unknown" else String.mk cs

/-- The `while os.path.exists(dest_path)` disambiguation loop (lines
698-704): the first `"base (n)ext"` not on disk, starting at `n = 1`.
Fuel-driven; `efs.length + 1` candidates always suffice. -/
def freshSuffixGo (efs : EFS) (dir base ext : String) : Nat → Nat → String
  | n, 0 => dir ++ base ++ " (" ++ toString n ++ ")" ++ ext
  | n, fuel + 1 =>
    let cand := dir ++ base ++ " (" ++ toString n ++ ")" ++ ext
    if (efsLookup efs cand).isSome then freshSuffixGo efs dir base ext (n + 1) fuel
    else cand

/-- The file extension used for a track's export destination (from the
on-device source path, defaulting to ".mp3"). -/
def exportExt (t : DTrack) : String :=
  let ext0 := pathSuffix ((t.ipod_path).getD "")
  if ext0 = "" then ".mp3" else ext0

/-- The `destination/sanitized-artist/sanitized-album/` directory of a
track's export destination. -/
def exportDir (dest : String) (t : DTrack) : String :=
  dest ++ "/" ++ sanitizeName (pyOrStr t.artist "Unknown Artist") ++ "/" ++
    sanitizeName (pyOrStr t.album "Unknown Album") ++ "/"

/-- The undisambiguated destination path
`destination/sanitized-artist/sanitized-album/sanitized-title.ext`. -/
def exportBasePath (dest : String) (t : DTrack) : String :=
  exportDir dest t ++ sanitizeName (pyOrStr t.title "Unknown") ++ exportExt t

/-- The per-track loop of `export_tracks` (lines 646-718), accumulating
`(destination filesystem, exported, skipped, error entries)`.  The
optional progress callback is passed as `None` and dropped. -/
def exportLoop (dest : String) :
    List DTrack → EFS → Nat → Nat → List (String × String × String) →
    EFS × Nat × Nat × List (String × String × String)
  | [], efs, ex, sk, errs => (efs, ex, sk, errs)
  | t :: rest, efs, ex, sk, errs =>
    let artist := pyOrStr t.artist "Unknown Artist"
    let title := pyOrStr t.title "Unknown"
    let src? : Option (String × Nat) := match t.ipod_path with
      | none => none
      | some sp => (efsLookup efs sp).map (fun sz => (sp, sz))
    match src? with
    | none => exportLoop dest rest efs ex sk (errs ++ [(title, artist, "File not found on iPod")])
    | some (_, srcSize) =>
      let destPath := exportBasePath dest t
      match efsLookup efs destPath with
      | some destSize =>
        if srcSize = destSize then exportLoop dest rest efs ex (sk + 1) errs
        else
          let destPath := freshSuffixGo efs (exportDir dest t)
            (sanitizeName (pyOrStr t.title "Unknown")) (exportExt t) 1 (efs.length + 1)
          exportLoop dest rest (efsInsert efs destPath srcSize) (ex + 1) sk errs
      | none => exportLoop dest rest (efsInsert efs destPath srcSize) (ex + 1) sk errs

/-- The aggregate result of `export_tracks`. -/
structure ExportResult where
  exported : Nat
  skipped : Nat
  errors : Nat
  error_details : List (String × String × String)
deriving DecidableEq

/-- `IPodManager.export_tracks` (lines 625-725): connection check, then
the per-track copy loop; per-track failures never abort the run; error
details are capped at 10. -/
def export_tracks (m : Manager) (efs : EFS) (dest : String) :
    EFS × Except PyExc ExportResult :=
  match m.cat with
  | none => (efs, .error (.ipodError "Not connected to an iPod"))
  | some cat =>
    let out := exportLoop dest cat.tracks efs 0 0 []
    (out.1, .ok ⟨out.2.1, out.2.2.1, out.2.2.2.length, out.2.2.2.take 10⟩)

/-! ## Hypothesis predicates (decidable, so witnesses can evaluate them) -/

/-- A property of the payload of an `Option`, trivially true for `none`. -/
def OptProp {α : Type} (o : Option α) (P : α → Prop) : Prop :=
  match o with
  | none => True
  | some a => P a

instance {α : Type} (o : Option α) (P : α → Prop) [inst : ∀ a, Decidable (P a)] :
    Decidable (OptProp o P) :=
  match o with
  | none => isTrue trivial
  | some a => inst a

/-- Every enumerated file that exists has a size that fits
`struct.pack("<L", size)`, so hashing never raises `struct.error`. -/
def SizesOk (env : Env) (files : List String) : Prop :=
  ∀ p ∈ files, OptProp (env.fs p) (fun f => f.content.length < 4294967296)

instance (env : Env) (files : List String) : Decidable (SizesOk env files) := by
  unfold SizesOk
  infer_instance

/-- A file whose processing cannot upsert a row: unparsable, or parsable
with no identifying metadata while the scan is not a podcast scan and
the allow-without-metadata setting (value `allow`) is disabled. -/
def InertFile (env : Env) (pod : Bool) (allow : Option String) (p : String) : Prop :=
  OptProp (env.extract p) (fun mt =>
    metaHasMeta mt = false ∧ pod = false ∧ allow ≠ some "1")

/-- Cache coherence for stale permissive-mode rows: a non-podcast cached
row without identifying metadata whose file still matches on mtime must
describe a file that genuinely has no identifying metadata, scanned with
the same (non-podcast) classification.  This is automatic for rows the
scanner itself produced; it rules out caches whose rows contradict the
current extractor output. -/
def Coherent (env : Env) (db : LibDB) (pod : Bool) : Prop :=
  ∀ r ∈ db.rows, r.is_podcast = 0 → rowHasMeta r = false →
    OptProp (env.fs r.file_path) (fun f =>
      |r.file_mtime - f.mtime| < 1 / 100 →
        pod = false ∧
        OptProp (env.extract r.file_path) (fun mt => metaHasMeta mt = false))

instance (env : Env) (db : LibDB) (pod : Bool) : Decidable (Coherent env db pod) := by
  unfold Coherent
  infer_instance

/-- A file on which a scan over database `db` cannot mutate the store:
its cached mtime matches within the epsilon, or processing it is inert
(unparsable, or skipped by the no-metadata policy). -/
def FileGood (env : Env) (db : LibDB) (pod : Bool) (p : String) : Prop :=
  ∀ f, env.fs p = some f →
    ((∃ c, get_cached_mtime db p = some c ∧ |c - f.mtime| < 1 / 100) ∨
     InertFile env pod (get_setting db "allow_files_without_metadata") p)

/-! ## Concrete data for witnesses and counterexamples -/

/-- A three-byte file with mtime 5. -/
def fileA : PyFile := ⟨[1, 2, 3], 5⟩

/-- A file with the same size and content as `fileA` but mtime 7. -/
def fileB : PyFile := ⟨[1, 2, 3], 7⟩

/-- The shared fingerprint of `fileA`/`fileB`. -/
def hashAB : String := sha1hex (packUInt32LE 3 ++ [1, 2, 3])

/-- A metadata record with identifying fields. -/
def metaFull : Meta :=
  ⟨some "Title", some "Artist", some "Album", none, none, some 1, none,
   some 2001, some 1000, some 128⟩

/-- A metadata record with no identifying fields (title only). -/
def metaBare : Meta :=
  ⟨some "bare", none, none, none, none, none, none, none, none, none⟩

/-- A concrete environment: two identical-content audio files, a video
file, and a directory walk over the two audio files. -/
def envW : Env :=
  { fs := fun p =>
      if p = "/lib/a.mp3" then some fileA
      else if p = "/lib/b.mp3" then some fileB
      else if p = "/lib/clip.m4v" then some fileA
      else none
    extract := fun p =>
      if p = "/lib/a.mp3" then some metaFull
      else if p = "/lib/b.mp3" then some metaFull
      else if p = "/lib/clip.m4v" then some metaFull
      else none
    artwork := fun _ => (false, none)
    rootIsDir := true
    walkFiles := ["/lib/a.mp3", "/lib/b.mp3"]
    transcode := fun _ _ => none
    supportsVideo := false }

/-- The empty library cache. -/
def dbEmpty : LibDB := ⟨[], 1, []⟩

/-- The track dict `process_single_file` builds for `/lib/b.mp3`. -/
def tdB : TrackData := ⟨"/lib/b.mp3", 7, hashAB, 0, none, 0, 0, metaFull⟩

/-- The cache after ingesting `/lib/b.mp3` into the empty cache. -/
def dbB : LibDB := upsert_track dbEmpty tdB

/-- The track dict built for the video file `/lib/clip.m4v`. -/
def tdV : TrackData := ⟨"/lib/clip.m4v", 5, hashAB, 0, none, 0, 1, metaFull⟩

/-- The cache after ingesting the video file into the empty cache. -/
def dbV : LibDB := upsert_track dbEmpty tdV

/-- A cache already holding a row with the shared fingerprint. -/
def dbDup : LibDB :=
  ⟨[⟨1, "/lib/old.mp3", 5, hashAB, some "Old", some "Artist", none, none, none,
     none, none, none, none, none, 0, none, 0⟩], 2, []⟩

/-- A catalog whose only playlist is the master playlist. -/
def catMaster : Catalog := ⟨[], [⟨1, "iPod", true, false, false, []⟩], 1⟩

/-- A connected manager over `catMaster`. -/
def mgrMaster : Manager := ⟨some catMaster, some "/mnt/ipod"⟩

/-- A library row for `/lib/a.mp3` whose stored fingerprint matches the
file, as the scanner would produce. -/
def rowA : Row :=
  ⟨1, "/lib/a.mp3", 5, hashAB, some "Title", some "Artist", some "Album", none,
   none, some 1, none, some 2001, some 1000, some 128, 0, none, 0⟩

/-- The source file of a device track exists on the export filesystem. -/
def srcOkB (efs : EFS) (t : DTrack) : Bool :=
  match t.ipod_path with
  | none => false
  | some sp => (efsLookup efs sp).isSome

/-- Two device tracks with identical artist/album/title whose source
files have different sizes — they collide on the export base path. -/
def dtSong1 : DTrack :=
  ⟨1, some "Song", some "Art", some "Al", none, 0, some "/ipod/f00.mp3"⟩

/-- Second colliding device track (bigger file). -/
def dtSong2 : DTrack :=
  ⟨2, some "Song", some "Art", some "Al", none, 0, some "/ipod/f01.mp3"⟩

/-- A connected manager holding the two colliding tracks. -/
def mgrCollide : Manager := ⟨some ⟨[dtSong1, dtSong2], [], 3⟩, some "/mnt/ipod"⟩

/-- The device filesystem for the export counterexample: the two source
files, sizes 10 and 20. -/
def efs0 : EFS := [("/ipod/f00.mp3", 10), ("/ipod/f01.mp3", 20)]

/-- The destination filesystem after the first export run. -/
def efs1 : EFS :=
  efs0 ++ [("/out/Art/Al/Song.mp3", 10), ("/out/Art/Al/Song (1).mp3", 20)]

/-- The destination filesystem after the second export run: the second
track was copied again under a fresh suffix. -/
def efs2 : EFS := efs1 ++ [("/out/Art/Al/Song (2).mp3", 20)]

/-- A device track with a distinct title (no destination collision). -/
def dtA : DTrack := ⟨1, some "SongA", some "Art", some "Al", none, 0, some "/ipod/f00.mp3"⟩

/-- A second device track with a distinct title. -/
def dtB : DTrack := ⟨2, some "SongB", some "Art", some "Al", none, 0, some "/ipod/f01.mp3"⟩

/-- A connected manager whose two tracks have distinct destination
paths. -/
def mgrDistinct : Manager := ⟨some ⟨[dtA, dtB], [], 3⟩, some "/mnt/ipod"⟩

/-- An empty device catalog. -/
def catEmpty : Catalog := ⟨[], [], 1⟩

/-- A connected manager over the empty catalog. -/
def mgrEmpty : Manager := ⟨some catEmpty, some "/mnt/ipod"⟩

/-- An `add_tracks` loop state whose duplicate set already holds the
shared fingerprint. -/
def stDup : AddState := ⟨catEmpty, [hashAB], ⟨[], [], []⟩⟩

/-- An `add_tracks` loop state with an empty duplicate set. -/
def stFresh : AddState := ⟨catEmpty, [], ⟨[], [], []⟩⟩

/-- The transcoded temp file: content differing from `fileA`, so its
fingerprint differs from `hashAB`. -/
def fileT : PyFile := ⟨[9, 9, 9, 9], 1⟩

/-- A library row for the FLAC file `/lib/c.flac` whose stored
fingerprint matches that file, as the scanner would produce. -/
def rowF : Row :=
  ⟨2, "/lib/c.flac", 3, hashAB, some "FlacTitle", some "FlacArtist", none, none,
   none, none, none, none, none, none, 0, none, 0⟩

/-- An environment with the FLAC source file and a transcoder that
converts it to the temp file `/tmp/t.m4a`. -/
def envF : Env :=
  { fs := fun p =>
      if p = "/lib/c.flac" then some fileA
      else if p = "/tmp/t.m4a" then some fileT
      else none
    extract := fun _ => none
    artwork := fun _ => (false, none)
    rootIsDir := true
    walkFiles := []
    transcode := fun p fmt =>
      if p = "/lib/c.flac" ∧ fmt = "alac" then some "/tmp/t.m4a" else none
    supportsVideo := false }

/-! ## Theorems -/

/-- Sanity: SHA-1 of the empty message matches the published test vector. -/
theorem sha1hex_empty : sha1hex [] = "da39a3ee5e6b4b0d3255bfef95601890afd80709" := by decide

/-- Sanity: SHA-1 of "abc" matches the published test vector. -/
theorem sha1hex_abc : sha1hex [97, 98, 99] = "a9993e364706816aba3e25717850c26c9cd0d89d" := by
  decide

/-- Claim C4: `sha1_hash(path)` equals the hex digest of the SHA-1 hash
of the 4-byte little-endian file size concatenated with the first 16384
bytes of the file's content; consequently, for any two files with
identical size and identical first 16384 bytes, the fingerprints are
equal.  (The size must fit 32 bits, or `struct.pack("<L", size)`
raises.) -/
theorem sha1_hash_layout_and_prefix (env : Env) (p q : String) (f g : PyFile)
    (hf : env.fs p = some f) (hsz : f.content.length < 4294967296)
    (hg : env.fs q = some g) (hlen : g.content.length = f.content.length)
    (hpre : g.content.take 16384 = f.content.take 16384) :
    sha1_hash env p =
      .ok (sha1hex (packUInt32LE f.content.length ++ f.content.take 16384)) ∧
    sha1_hash env p = sha1_hash env q := by
  unfold sha1_hash
  rw [hf, hg]
  simp [hsz, hlen, hpre]

/-- Witness for C4: the two concrete files `/lib/a.mp3` and `/lib/b.mp3`
have equal size and identical content, hence equal fingerprints. -/
theorem sha1_hash_layout_and_prefix_witness :
    sha1_hash envW "/lib/a.mp3" =
      .ok (sha1hex (packUInt32LE fileA.content.length ++ fileA.content.take 16384)) ∧
    sha1_hash envW "/lib/a.mp3" = sha1_hash envW "/lib/b.mp3" :=
  sha1_hash_layout_and_prefix envW "/lib/a.mp3" "/lib/b.mp3" fileA fileB
    (by decide) (by decide) (by decide) (by decide) (by decide)

/-- Claim C8: for every unreadable or nonexistent file path, `sha1_hash`
raises an I/O error to its caller; it never returns a fingerprint. -/
theorem sha1_hash_unreadable (env : Env) (p : String) (h : env.fs p = none) :
    sha1_hash env p = .error .osError ∧ ∀ s, sha1_hash env p ≠ .ok s := by
  unfold sha1_hash
  rw [h]
  simp

/-- Witness for C8: a path that does not exist in the concrete
environment. -/
theorem sha1_hash_unreadable_witness :
    sha1_hash envW "/lib/missing.mp3" = .error .osError ∧
    ∀ s, sha1_hash envW "/lib/missing.mp3" ≠ .ok s :=
  sha1_hash_unreadable envW "/lib/missing.mp3" (by decide)

/-- In-place replacement of a present key is found by a subsequent
lookup. -/
theorem find_map_set {α : Type} (l : List (String × α)) (k : String) (st : α)
    (h : l.any (fun p => p.1 == k) = true) :
    (l.map (fun p => if p.1 == k then (k, st) else p)).find? (fun p => p.1 == k) =
      some (k, st) := by
  induction l with
  | nil => simp at h
  | cons hd tl ih =>
    rw [List.any_cons] at h
    by_cases hk : hd.1 = k
    · simp [List.find?, hk]
    · have hb : (hd.1 == k) = false := by simp [hk]
      rw [hb] at h
      simp only [Bool.false_or] at h
      simpa [List.find?, hb] using ih h

/-- Appending a fresh key is found by a subsequent lookup. -/
theorem find_append_new {α : Type} (l : List (String × α)) (k : String) (st : α)
    (h : l.any (fun p => p.1 == k) = false) :
    (l ++ [(k, st)]).find? (fun p => p.1 == k) = some (k, st) := by
  induction l with
  | nil => simp [List.find?]
  | cons hd tl ih =>
    rw [List.any_cons] at h
    rw [Bool.or_eq_false_iff] at h
    simpa [List.find?, h.1] using ih h.2

/-- The get/set round-trip of the settings table: the stored value is
`str(value)` for truthy values and SQL NULL otherwise. -/
theorem get_setting_set_setting (db : LibDB) (k : String) (v : PyVal) :
    get_setting (set_setting db k v) k = (if v.truthy then some v.pyStr else none) := by
  unfold get_setting set_setting
  dsimp only
  by_cases hany : db.settings.any (fun p => p.1 == k) = true
  · rw [if_pos hany, find_map_set db.settings k _ hany]
  · have hb : db.settings.any (fun p => p.1 == k) = false := by
      rwa [Bool.not_eq_true] at hany
    rw [if_neg hany, find_append_new db.settings k _ hb]

/-- Claim C10: `set_setting` stores SQL NULL for any falsy value, so the
get/set round-trip only holds for truthy values: for every key and falsy
value (0, '', False, None), `get_setting` after `set_setting` returns
`None` rather than `str(value)`; a toggle stored as the string "0"
round-trips, stored as the integer 0 it does not. -/
theorem set_setting_falsy_roundtrip (db : LibDB) (k : String) :
    (∀ v : PyVal, v.truthy = false → get_setting (set_setting db k v) k = none) ∧
    get_setting (set_setting db k (.vStr "0")) k = some "0" ∧
    get_setting (set_setting db k (.vInt 0)) k = none := by
  refine ⟨fun v hv => ?_, ?_, ?_⟩
  · rw [get_setting_set_setting, hv]
    rfl
  · rw [get_setting_set_setting]
    rfl
  · rw [get_setting_set_setting]
    rfl

/-- Witness for C10: a concrete falsy store on the empty settings
table. -/
theorem set_setting_falsy_roundtrip_witness :
    (∀ v : PyVal, v.truthy = false →
      get_setting (set_setting dbEmpty "allow_files_without_metadata" v)
        "allow_files_without_metadata" = none) ∧
    get_setting (set_setting dbEmpty "allow_files_without_metadata" (.vStr "0"))
      "allow_files_without_metadata" = some "0" ∧
    get_setting (set_setting dbEmpty "allow_files_without_metadata" (.vInt 0))
      "allow_files_without_metadata" = none :=
  set_setting_falsy_roundtrip dbEmpty "allow_files_without_metadata"

/-- Claim C9: `rename_playlist` and `delete_playlist` on the master
playlist always fail with the same error kind (`IPodError`), and the
manager state — hence the playlist's name, membership and presence — is
left unchanged by the failed call. -/
theorem master_playlist_protected (m : Manager) (cat : Catalog) (pid : Nat)
    (name : String) (pl : DPlaylist) (hc : m.cat = some cat)
    (hfind : find_playlist cat pid = some pl) (hm : pl.master = true) :
    rename_playlist m pid name =
      (m, .error (.ipodError "Cannot rename the master playlist")) ∧
    delete_playlist m pid =
      (m, .error (.ipodError "Cannot delete the master playlist")) := by
  unfold rename_playlist delete_playlist
  rw [hc]
  simp [hfind, hm]

/-- Witness for C9: the concrete master-only catalog. -/
theorem master_playlist_protected_witness :
    rename_playlist mgrMaster 1 "New Name" =
      (mgrMaster, .error (.ipodError "Cannot rename the master playlist")) ∧
    delete_playlist mgrMaster 1 =
      (mgrMaster, .error (.ipodError "Cannot delete the master playlist")) :=
  master_playlist_protected mgrMaster catMaster 1 "New Name"
    ⟨1, "iPod", true, false, false, []⟩ rfl (by decide) rfl

/-- Claim C3 (code bug): `process_single_file` with `is_video=True`
builds a track dict with the video flag set, but the stored row loses
it — the `library_tracks` schema has no `is_video` column and
`upsert_track`'s INSERT drops the key — so any row fetched back from the
store (e.g. via `get_tracks_by_ids`) has no video marking: `.get` of
`"is_video"` yields `None`. -/
theorem is_video_flag_dropped (env : Env) (db : LibDB) (p : String) (db' : LibDB)
    (td : TrackData)
    (h : process_single_file env db p false true = .ok (db', .added td)) :
    td.is_video = 1 ∧
    ∀ ids r, r ∈ get_tracks_by_ids db' ids → Row.get r "is_video" = none := by
  refine ⟨?_, fun ids r _ => rfl⟩
  unfold process_single_file at h
  repeat' split at h
  all_goals first
  | (simp only [Except.ok.injEq, Prod.mk.injEq, ProcStatus.added.injEq] at h
     obtain ⟨-, h2⟩ := h
     subst h2
     rfl)
  | exact absurd h (by simp)

/-- Witness for C3: ingesting the concrete video file. -/
theorem is_video_flag_dropped_witness :
    tdV.is_video = 1 ∧
    ∀ ids r, r ∈ get_tracks_by_ids dbV ids → Row.get r "is_video" = none :=
  is_video_flag_dropped envW dbEmpty "/lib/clip.m4v" dbV tdV (by decide)

/-- `process_single_file` succeeds (never raises) when the file, if it
exists, has a 32-bit size. -/
theorem process_ok (env : Env) (db : LibDB) (p : String) (pod vid : Bool)
    (hsz : OptProp (env.fs p) (fun f => f.content.length < 4294967296)) :
    ∃ db' st, process_single_file env db p pod vid = .ok (db', st) := by
  rcases hfs : env.fs p with _ | f
  · exact ⟨db, .errorStat, by unfold process_single_file; rw [hfs]⟩
  · rcases hex : env.extract p with _ | mt
    · exact ⟨db, .errorParse, by unfold process_single_file; rw [hfs]; dsimp only; rw [hex]⟩
    · have hlt : f.content.length < 4294967296 := by rw [hfs] at hsz; exact hsz
      have hhash : sha1_hash env p =
          .ok (sha1hex (packUInt32LE f.content.length ++ f.content.take 16384)) := by
        unfold sha1_hash
        rw [hfs]
        dsimp only
        rw [if_pos hlt]
      by_cases hskip : (!metaHasMeta mt && !pod &&
          decide (get_setting db "allow_files_without_metadata" ≠ some "1")) = true
      · exact ⟨db, .skippedNoMeta, by
          unfold process_single_file
          rw [hfs]
          dsimp only
          rw [hex]
          dsimp only
          rw [if_pos hskip]⟩
      · exact ⟨_, _, by
          unfold process_single_file
          rw [hfs]
          dsimp only
          rw [hex]
          dsimp only
          rw [if_neg hskip, hhash]⟩

/-- `process_single_file` never writes the settings table. -/
theorem process_settings (env : Env) (db : LibDB) (p : String) (pod vid : Bool)
    (db' : LibDB) (st : ProcStatus)
    (h : process_single_file env db p pod vid = .ok (db', st)) :
    db'.settings = db.settings := by
  unfold process_single_file at h
  repeat' split at h
  all_goals first
  | (simp only [Except.ok.injEq, Prod.mk.injEq] at h
     obtain ⟨h1, -⟩ := h
     subst h1
     rfl)
  | exact absurd h (by simp)

/-- The scan walk loop completes when every enumerated file has a 32-bit
size, and it never writes the settings table. -/
theorem walkLoop_ok (env : Env) (pod vid : Bool) (total : Nat) :
    ∀ files : List String, ∀ db evs muts scanned, SizesOk env files →
      ∃ db1 evs1 muts1,
        walkLoop env pod vid total files scanned db evs muts = .ok (db1, evs1, muts1) ∧
        db1.settings = db.settings := by
  intro files
  induction files with
  | nil => exact fun db evs muts scanned _ => ⟨db, evs, muts, rfl, rfl⟩
  | cons p rest ih =>
    intro db evs muts scanned hsz
    have hszp := hsz p (by simp)
    have hszr : SizesOk env rest := fun q hq => hsz q (by simp [hq])
    simp only [walkLoop]
    rcases hfs : env.fs p with _ | f
    · exact ih db evs muts (scanned + 1) hszr
    · dsimp only
      split
      · exact ih db _ muts (scanned + 1) hszr
      · obtain ⟨db', st, hproc⟩ := process_ok env db p pod vid hszp
        rw [hproc]
        obtain ⟨db1, evs1, muts1, hrec, hset⟩ := ih db' _ _ (scanned + 1) hszr
        exact ⟨db1, evs1, muts1, hrec,
          hset.trans (process_settings env db p pod vid db' st hproc)⟩

/-- Membership after the vanished-file cleanup implies the file exists. -/
theorem remove_missing_mem (env : Env) (d : LibDB) (r : Row)
    (h : r ∈ (remove_missing_files env d).1.rows) :
    r ∈ d.rows ∧ (env.fs r.file_path).isSome = true := by
  unfold remove_missing_files at h
  exact ⟨(List.mem_filter.mp h).1, (List.mem_filter.mp h).2⟩

/-- The purge only removes rows, and under the disabled setting the
surviving non-podcast rows have identifying metadata. -/
theorem purge_mem (d : LibDB) (r : Row)
    (h : r ∈ (remove_files_without_metadata_if_disabled d).1.rows) :
    r ∈ d.rows ∧
    (get_setting d "allow_files_without_metadata" ≠ some "1" →
      r.is_podcast = 0 → rowHasMeta r = true) := by
  unfold remove_files_without_metadata_if_disabled at h
  split at h
  · next hdis =>
    refine ⟨(List.mem_filter.mp h).1, fun _ hpod => ?_⟩
    have hk := (List.mem_filter.mp h).2
    simp only [hpod] at hk
    simpa using hk
  · next hdis =>
    refine ⟨h, fun hcon _ => ?_⟩
    exact absurd hcon (by simpa using hdis)

/-- The purge does not write the settings table. -/
theorem purge_settings (d : LibDB) :
    (remove_files_without_metadata_if_disabled d).1.settings = d.settings := by
  unfold remove_files_without_metadata_if_disabled
  split <;> rfl

/-- Claim C1: every run of `scan_directory` that finishes its file walk
then removes cache rows whose path no longer exists on disk, purges
previously-cached rows without identifying metadata when the
allow-without-metadata setting is disabled (podcast rows exempt), and
finally delivers a "done" progress signal with scanned = total. -/
theorem scan_cleanup_and_done (env : Env) (db : LibDB) (pod vid : Bool)
    (hdir : env.rootIsDir = true) (hsz : SizesOk env (scanFiles env vid)) :
    ∃ out, scan_directory env db pod vid = .ok out ∧
      (∀ r ∈ out.db.rows, (env.fs r.file_path).isSome = true) ∧
      (get_setting out.db "allow_files_without_metadata" ≠ some "1" →
        ∀ r ∈ out.db.rows, r.is_podcast = 0 → rowHasMeta r = true) ∧
      out.events.getLast? =
        some ((scanFiles env vid).length, (scanFiles env vid).length, "Done") := by
  obtain ⟨db1, evs1, muts1, hwalk, -⟩ :=
    walkLoop_ok env pod vid (scanFiles env vid).length (scanFiles env vid) db [] 0 0 hsz
  unfold scan_directory
  rw [hdir]
  dsimp only
  rw [hwalk]
  refine ⟨_, rfl, ?_, ?_, ?_⟩
  · intro r hr
    exact (remove_missing_mem env db1 r (purge_mem _ r hr).1).2
  · intro hdis r hr hpod
    have hset : (remove_files_without_metadata_if_disabled
        (remove_missing_files env db1).1).1.settings =
        (remove_missing_files env db1).1.settings := purge_settings _
    refine (purge_mem _ r hr).2 ?_ hpod
    rw [show get_setting (remove_missing_files env db1).1 "allow_files_without_metadata" =
        get_setting (remove_files_without_metadata_if_disabled
          (remove_missing_files env db1).1).1 "allow_files_without_metadata" by
      unfold get_setting; rw [hset]]
    exact hdis
  · split <;> simp

/-- Witness for C1: scanning the concrete two-file library. -/
theorem scan_cleanup_and_done_witness :
    ∃ out, scan_directory envW dbEmpty false false = .ok out ∧
      (∀ r ∈ out.db.rows, (envW.fs r.file_path).isSome = true) ∧
      (get_setting out.db "allow_files_without_metadata" ≠ some "1" →
        ∀ r ∈ out.db.rows, r.is_podcast = 0 → rowHasMeta r = true) ∧
      out.events.getLast? =
        some ((scanFiles envW false).length, (scanFiles envW false).length, "Done") :=
  scan_cleanup_and_done envW dbEmpty false false rfl (by decide)

/-- Claim C2: ingesting a newly-uploaded file performs a
fingerprint-based duplicate check against the Local Cache Store (the
full-table duplicate-hash lookup): an upload whose fingerprint already
exists in the cache is reported as a duplicate and not added (the store
is untouched), and an upload with a new fingerprint proceeds through
`process_single_file` to be added. -/
theorem upload_fingerprint_dedup (env : Env) (db : LibDB) (fn tmp dst : String)
    (hh : String)
    (hext : SUPPORTED_EXTENSIONS.contains (strLower (pathSuffix fn)) = true)
    (hhash : sha1_hash env tmp = .ok hh) :
    ((∃ r ∈ db.rows, r.sha1_hash = hh) →
      ∃ r, check_duplicate_hash db hh = some r ∧
        library_upload_one env db fn tmp dst = .ok (db, .duplicate r.title r.artist)) ∧
    ((∀ r ∈ db.rows, r.sha1_hash ≠ hh) →
      ∀ db2 td, process_single_file env db dst false false = .ok (db2, .added td) →
        library_upload_one env db fn tmp dst =
          .ok (db2, .added td.meta.title td.meta.artist td.meta.album)) := by
  constructor
  · rintro ⟨r, hr, hrh⟩
    have hfind : (check_duplicate_hash db hh).isSome := by
      unfold check_duplicate_hash
      rw [List.find?_isSome]
      exact ⟨r, hr, by simp [hrh]⟩
    obtain ⟨r', hr'⟩ := Option.isSome_iff_exists.mp hfind
    refine ⟨r', hr', ?_⟩
    have hmem : strLower (pathSuffix fn) ∈ SUPPORTED_EXTENSIONS := by simpa using hext
    unfold library_upload_one
    simp [hmem, hhash, hr']
  · intro hno db2 td hproc
    have hfind : check_duplicate_hash db hh = none := by
      unfold check_duplicate_hash
      rw [List.find?_eq_none]
      intro r hr
      simp [hno r hr]
    have hmem : strLower (pathSuffix fn) ∈ SUPPORTED_EXTENSIONS := by simpa using hext
    unfold library_upload_one
    simp [hmem, hhash, hfind, hproc]

/-- Witness for C2: uploading a file whose fingerprint is already cached
is reported as a duplicate and leaves the cache unchanged; the same
upload against a cache without that fingerprint is added. -/
theorem upload_fingerprint_dedup_witness :
    (∃ r, check_duplicate_hash dbDup hashAB = some r ∧
      library_upload_one envW dbDup "song.mp3" "/lib/a.mp3" "/lib/new.mp3" =
        .ok (dbDup, .duplicate r.title r.artist)) ∧
    library_upload_one envW dbEmpty "song.mp3" "/lib/a.mp3" "/lib/b.mp3" =
      .ok (dbB, .added tdB.meta.title tdB.meta.artist tdB.meta.album) :=
  ⟨(upload_fingerprint_dedup envW dbDup "song.mp3" "/lib/a.mp3" "/lib/new.mp3" hashAB
      (by decide) (by decide)).1
      ⟨⟨1, "/lib/old.mp3", 5, hashAB, some "Old", some "Artist", none, none, none,
        none, none, none, none, none, 0, none, 0⟩, by decide, rfl⟩,
   (upload_fingerprint_dedup envW dbEmpty "song.mp3" "/lib/a.mp3" "/lib/b.mp3" hashAB
      (by decide) (by decide)).2
      (fun r hr => absurd hr (by simp [dbEmpty])) dbB tdB (by decide)⟩

/-- Looking up the key just copied in by `efsInsert`. -/
theorem efsLookup_insert_self (efs : EFS) (p : String) (sz : Nat) :
    efsLookup (efsInsert efs p sz) p = some sz := by
  unfold efsInsert efsLookup
  by_cases hany : efs.any (fun q => q.1 == p) = true
  · rw [if_pos hany, find_map_set efs p sz hany]
    rfl
  · have hb : efs.any (fun q => q.1 == p) = false := by rwa [Bool.not_eq_true] at hany
    rw [if_neg hany, find_append_new efs p sz hb]
    rfl

/-- The in-place overwrite of key `p` leaves lookups of other keys
unchanged. -/
theorem find_map_other {α : Type} (l : List (String × α)) (p q : String) (sz : α)
    (hne : q ≠ p) :
    (l.map (fun e => if e.1 == p then (p, sz) else e)).find? (fun e => e.1 == q) =
      l.find? (fun e => e.1 == q) := by
  have hpq : ((p, sz).1 == q) = false := by
    rw [beq_eq_false_iff_ne]
    exact fun h => hne h.symm
  induction l with
  | nil => rfl
  | cons hd tl ih =>
    rw [List.map_cons]
    by_cases hp : (hd.1 == p) = true
    · have hpe : hd.1 = p := by rwa [beq_iff_eq] at hp
      have e1 : (if (hd.1 == p) = true then (p, sz) else hd) = (p, sz) := by rw [if_pos hp]
      have e2 : (hd.1 == q) = false := by
        rw [beq_eq_false_iff_ne, hpe]
        exact fun h => hne h.symm
      rw [e1]
      simp only [List.find?, hpq, e2]
      exact ih
    · have e1 : (if (hd.1 == p) = true then (p, sz) else hd) = hd := by rw [if_neg hp]
      rw [e1]
      cases hq : (hd.1 == q) with
      | true => simp only [List.find?, hq]
      | false =>
        simp only [List.find?, hq]
        exact ih

/-- Appending a new key leaves lookups of other keys unchanged. -/
theorem find_append_other {α : Type} (l : List (String × α)) (p q : String) (sz : α)
    (hne : q ≠ p) :
    (l ++ [(p, sz)]).find? (fun e => e.1 == q) = l.find? (fun e => e.1 == q) := by
  have hpq : ((p, sz).1 == q) = false := by
    rw [beq_eq_false_iff_ne]
    exact fun h => hne h.symm
  induction l with
  | nil =>
    rw [List.nil_append]
    simp only [List.find?, hpq]
  | cons hd tl ih =>
    rw [List.cons_append]
    cases hq : (hd.1 == q) with
    | true => simp only [List.find?, hq]
    | false =>
      simp only [List.find?, hq]
      exact ih

/-- `efsInsert` leaves lookups of other paths unchanged. -/
theorem efsLookup_insert_other (efs : EFS) (p q : String) (sz : Nat) (hne : q ≠ p) :
    efsLookup (efsInsert efs p sz) q = efsLookup efs q := by
  unfold efsInsert efsLookup
  split
  · rw [find_map_other efs p q sz hne]
  · rw [find_append_other efs p q sz hne]

/-- First export run over tracks whose destination base paths are fresh
and pairwise distinct, and disjoint from all source paths: every track
is copied to its base path, and afterwards each base path holds a file
of the source's size while all pre-existing entries are untouched. -/
theorem exportLoop_all_new (dest : String) :
    ∀ (ts : List DTrack) (efs : EFS) (ex sk : Nat)
      (errs : List (String × String × String)),
      (∀ t ∈ ts, srcOkB efs t = true) →
      (∀ t ∈ ts, efsLookup efs (exportBasePath dest t) = none) →
      (ts.map (exportBasePath dest)).Nodup →
      (∀ t ∈ ts, ∀ t' ∈ ts, ∀ sp, t'.ipod_path = some sp →
        exportBasePath dest t ≠ sp) →
      ∃ efs',
        exportLoop dest ts efs ex sk errs = (efs', ex + ts.length, sk, errs) ∧
        (∀ q, (efsLookup efs q).isSome = true → efsLookup efs' q = efsLookup efs q) ∧
        (∀ t ∈ ts, ∀ sp, t.ipod_path = some sp →
          efsLookup efs' (exportBasePath dest t) = efsLookup efs sp) := by
  intro ts
  induction ts with
  | nil =>
    intro efs ex sk errs _ _ _ _
    exact ⟨efs, rfl, fun q _ => rfl, fun t ht => absurd ht (by simp)⟩
  | cons t rest ih =>
    intro efs ex sk errs hsrc hfresh hnd hsep
    have hsrct := hsrc t (by simp)
    rcases hip : t.ipod_path with _ | sp
    · simp only [srcOkB, hip] at hsrct
      exact absurd hsrct (by simp)
    · simp only [srcOkB, hip] at hsrct
      obtain ⟨sz, hsz⟩ := Option.isSome_iff_exists.mp hsrct
      have hbase := hfresh t (by simp)
      have hstep : exportLoop dest (t :: rest) efs ex sk errs =
          exportLoop dest rest (efsInsert efs (exportBasePath dest t) sz)
            (ex + 1) sk errs := by
        simp only [exportLoop, hip, hsz, Option.map_some', hbase]
      -- hypotheses for the recursive call on the extended filesystem
      set efs2 := efsInsert efs (exportBasePath dest t) sz with hefs2
      have hnotbase : ∀ t' ∈ rest, exportBasePath dest t' ≠ exportBasePath dest t := by
        intro t' ht' hcon
        have := (List.nodup_cons.mp hnd).1
        exact this (by
          rw [← hcon]
          exact List.mem_map_of_mem (exportBasePath dest) ht')
      have hsrc2 : ∀ t' ∈ rest, srcOkB efs2 t' = true := by
        intro t' ht'
        have h1 := hsrc t' (by simp [ht'])
        rcases hip' : t'.ipod_path with _ | sp'
        · simp only [srcOkB, hip'] at h1
          exact absurd h1 (by simp)
        · simp only [srcOkB, hip'] at h1 ⊢
          rw [hefs2, efsLookup_insert_other]
          · exact h1
          · exact fun hc => hsep t (by simp) t' (by simp [ht']) sp' hip' hc.symm
      have hfresh2 : ∀ t' ∈ rest, efsLookup efs2 (exportBasePath dest t') = none := by
        intro t' ht'
        rw [hefs2, efsLookup_insert_other]
        · exact hfresh t' (by simp [ht'])
        · exact hnotbase t' ht'
      have hnd2 : (rest.map (exportBasePath dest)).Nodup := (List.nodup_cons.mp hnd).2
      have hsep2 : ∀ t' ∈ rest, ∀ t'' ∈ rest, ∀ sp', t''.ipod_path = some sp' →
          exportBasePath dest t' ≠ sp' := by
        intro t' ht' t'' ht'' sp' hip'
        exact hsep t' (by simp [ht']) t'' (by simp [ht'']) sp' hip'
      obtain ⟨efs', heq, hpres, hdest⟩ := ih efs2 (ex + 1) sk errs hsrc2 hfresh2 hnd2 hsep2
      refine ⟨efs', ?_, ?_, ?_⟩
      · rw [hstep, heq]
        simp only [List.length_cons, Prod.mk.injEq, true_and, and_true]
        omega
      · intro q hq
        have hqne : q ≠ exportBasePath dest t := by
          intro hc
          rw [hc, hbase] at hq
          exact absurd hq (by simp)
        have h2 : efsLookup efs2 q = efsLookup efs q := by
          rw [hefs2]
          exact efsLookup_insert_other efs _ q sz hqne
        have h3 : (efsLookup efs2 q).isSome = true := by rw [h2]; exact hq
        rw [hpres q h3, h2]
      · intro t' ht' sp' hip'
        rcases List.mem_cons.mp ht' with h | h
        · subst h
          rw [hip] at hip'
          cases hip'
          have hself : efsLookup efs2 (exportBasePath dest t') = some sz :=
            efsLookup_insert_self efs _ sz
          rw [hpres _ (by rw [hself]; rfl), hself, hsz]
        · have h2 : efsLookup efs2 sp' = efsLookup efs sp' := by
            rw [hefs2, efsLookup_insert_other]
            exact fun hc => hsep t (by simp) t' (by simp [h]) sp' hip' hc.symm
          rw [hdest t' h sp' hip', h2]

/-- Second export run: when every track's destination base path already
holds a file of the source's size, every track is skipped by the
same-size match and the destination filesystem is unchanged. -/
theorem exportLoop_all_skip (dest : String) :
    ∀ (ts : List DTrack) (efs : EFS) (ex sk : Nat)
      (errs : List (String × String × String)),
      (∀ t ∈ ts, ∀ sp, t.ipod_path = some sp →
        efsLookup efs (exportBasePath dest t) = efsLookup efs sp) →
      (∀ t ∈ ts, srcOkB efs t = true) →
      exportLoop dest ts efs ex sk errs = (efs, ex, sk + ts.length, errs) := by
  intro ts
  induction ts with
  | nil =>
    intro efs ex sk errs _ _
    rfl
  | cons t rest ih =>
    intro efs ex sk errs hdest hsrc
    have hsrct := hsrc t (by simp)
    rcases hip : t.ipod_path with _ | sp
    · simp only [srcOkB, hip] at hsrct
      exact absurd hsrct (by simp)
    · simp only [srcOkB, hip] at hsrct
      obtain ⟨sz, hsz⟩ := Option.isSome_iff_exists.mp hsrct
      have hd : efsLookup efs (exportBasePath dest t) = some sz := by
        rw [hdest t (by simp) sp hip, hsz]
      have hstep : exportLoop dest (t :: rest) efs ex sk errs =
          exportLoop dest rest efs ex (sk + 1) errs := by
        simp only [exportLoop, hip, hsz, Option.map_some', hd, eq_self_iff_true, if_true]
      rw [hstep, ih efs ex (sk + 1) errs
        (fun t' ht' => hdest t' (by simp [ht'])) (fun t' ht' => hsrc t' (by simp [ht']))]
      simp only [List.length_cons, Prod.mk.injEq, true_and, and_true]
      omega

/-- Claim C7 (amended): running `export_tracks` twice to the same
destination with no device changes causes the second run to skip every
previously-exported track (same-size match) and write nothing — provided
no two device tracks collide on the same base destination path (and the
destination paths are disjoint from the source paths).  A collided track
is re-copied under a fresh `" (n)"` suffix on every run, because the
same-size check is only performed against the unsuffixed base path (see
the counterexample). -/
theorem export_rerun_skips_amended (m : Manager) (cat : Catalog) (efs : EFS)
    (dest : String) (hc : m.cat = some cat)
    (hsrc : ∀ t ∈ cat.tracks, srcOkB efs t = true)
    (hfresh : ∀ t ∈ cat.tracks, efsLookup efs (exportBasePath dest t) = none)
    (hnd : (cat.tracks.map (exportBasePath dest)).Nodup)
    (hsep : ∀ t ∈ cat.tracks, ∀ t' ∈ cat.tracks, ∀ sp, t'.ipod_path = some sp →
      exportBasePath dest t ≠ sp) :
    ∃ efs1 r1, export_tracks m efs dest = (efs1, .ok r1) ∧
      r1.exported = cat.tracks.length ∧ r1.skipped = 0 ∧ r1.errors = 0 ∧
      export_tracks m efs1 dest = (efs1, .ok ⟨0, cat.tracks.length, 0, []⟩) := by
  obtain ⟨efs1, heq, hpres, hdest⟩ :=
    exportLoop_all_new dest cat.tracks efs 0 0 [] hsrc hfresh hnd hsep
  have hexp1 : export_tracks m efs dest =
      (efs1, .ok ⟨cat.tracks.length, 0, 0, []⟩) := by
    unfold export_tracks
    rw [hc]
    dsimp only
    rw [heq]
    simp
  have hsrc1 : ∀ t ∈ cat.tracks, srcOkB efs1 t = true := by
    intro t ht
    have h1 := hsrc t ht
    rcases hip : t.ipod_path with _ | sp
    · simp only [srcOkB, hip] at h1
      exact absurd h1 (by simp)
    · simp only [srcOkB, hip] at h1 ⊢
      rw [hpres sp h1]
      exact h1
  have hdest1 : ∀ t ∈ cat.tracks, ∀ sp, t.ipod_path = some sp →
      efsLookup efs1 (exportBasePath dest t) = efsLookup efs1 sp := by
    intro t ht sp hip
    have hs := hsrc t ht
    simp only [srcOkB, hip] at hs
    rw [hdest t ht sp hip, hpres sp hs]
  have hexp2 : export_tracks m efs1 dest =
      (efs1, .ok ⟨0, cat.tracks.length, 0, []⟩) := by
    unfold export_tracks
    rw [hc]
    dsimp only
    rw [exportLoop_all_skip dest cat.tracks efs1 0 0 [] hdest1 hsrc1]
    simp
  exact ⟨efs1, ⟨cat.tracks.length, 0, 0, []⟩, hexp1, rfl, rfl, rfl, hexp2⟩

/-- Witness for C7 (amended): exporting two tracks with distinct titles
twice; the second run skips both and writes nothing. -/
theorem export_rerun_skips_amended_witness :
    ∃ efs1 r1, export_tracks mgrDistinct efs0 "/out" = (efs1, .ok r1) ∧
      r1.exported = (Catalog.mk [dtA, dtB] [] 3).tracks.length ∧
      r1.skipped = 0 ∧ r1.errors = 0 ∧
      export_tracks mgrDistinct efs1 "/out" =
        (efs1, .ok ⟨0, (Catalog.mk [dtA, dtB] [] 3).tracks.length, 0, []⟩) :=
  export_rerun_skips_amended mgrDistinct ⟨[dtA, dtB], [], 3⟩ efs0 "/out" rfl
    (by decide) (by decide) (by decide) (by decide)

/-- Counterexample to C7 as stated: two device tracks with identical
artist/album/title but different sizes collide on the base destination
path.  The first run exports both (the second under a `" (1)"` suffix);
the second run skips only the first and re-copies the collided track as
`" (2)"`: its exported count is 1, not 0, and a new file is written. -/
theorem export_rerun_counterexample :
    export_tracks mgrCollide efs0 "/out" = (efs1, .ok ⟨2, 0, 0, []⟩) ∧
    export_tracks mgrCollide efs1 "/out" = (efs2, .ok ⟨1, 1, 0, []⟩) ∧
    efs2 ≠ efs1 := by decide

/-- A candidate whose fingerprint is in the current duplicate set is
appended to `skipped_duplicates`; the catalog, the fingerprint set and
the added list are untouched. -/
theorem addStep_dup (env : Env) (db : LibDB) (target : Option Nat) (st : AddState)
    (t : Row) (h : st.existing.contains t.sha1_hash = true) :
    addStep env db target st t =
      { st with res := { st.res with skipped_duplicates :=
          st.res.skipped_duplicates ++
            [(t.file_path, t.title, t.artist, "Already on iPod")] } } := by
  unfold addStep
  rw [if_pos h]

/-- A fresh non-FLAC candidate whose file exists is created on the
device; its stored user-data fingerprint is the fingerprint of its file,
and the candidate's own fingerprint extends the duplicate set. -/
theorem addStep_fresh (env : Env) (db : LibDB) (st : AddState) (c : Row) (f : PyFile)
    (hcont : st.existing.contains c.sha1_hash = false)
    (hflac : (strLower (pathSuffix c.file_path) == ".flac") = false)
    (hfs : env.fs c.file_path = some f)
    (hne : (c.sha1_hash != "") = true) :
    addStep env db none st c =
      ⟨{ st.cat with
           tracks := st.cat.tracks ++
             [{ dbid := st.cat.nextId
                title := (env.extract c.file_path).bind (fun mt => mt.title)
                artist := (env.extract c.file_path).bind (fun mt => mt.artist)
                album := (env.extract c.file_path).bind (fun mt => mt.album)
                userdata_sha1 := (sha1_hash env c.file_path).toOption
                mediatype := 0
                ipod_path := none }]
           nextId := st.cat.nextId + 1 },
       st.existing ++ [c.sha1_hash],
       { st.res with added := st.res.added ++ [(c.title, c.artist)] }⟩ := by
  have hrv : Row.get c "is_video" = none := rfl
  unfold addStep
  rw [hcont]
  simp only [Bool.false_eq_true, if_false]
  rw [hflac]
  simp only [Bool.false_and, Bool.false_eq_true, if_false]
  unfold addWithPath dev_new_Track
  dsimp only
  rw [hfs]
  dsimp only
  simp only [hrv, optPyTruthy, Bool.false_eq_true, if_false]
  rw [hne]
  simp only [if_true]

/-- Claim C5 (amended): within one `add_tracks` call, a candidate whose
fingerprint matches an existing device track's stored fingerprint — or
an earlier candidate already added in the same batch (the duplicate set
only grows, and an added candidate's fingerprint joins it) — is reported
in `skipped_duplicates` and not added; and adding the same file by
fingerprint in a second, separate `add_tracks` call reports it as
skipped-duplicate with added count 0 for that item (and no device
mutation), PROVIDED the candidate is not a `.flac` file.  The original
claim fails on FLAC candidates with transcoding enabled (the default):
`new_Track` receives the transcoded temp path, so the device stores the
temp file's fingerprint rather than the library FLAC's and a second call
re-transcodes and re-adds the same file — see the counterexample. -/
theorem add_tracks_duplicate_suppression_amended (env : Env) (db : LibDB) :
    (∀ target st t, st.existing.contains t.sha1_hash = true →
      addStep env db target st t =
        { st with res := { st.res with skipped_duplicates :=
            st.res.skipped_duplicates ++
              [(t.file_path, t.title, t.artist, "Already on iPod")] } }) ∧
    (∀ target st t h', h' ∈ st.existing → h' ∈ (addStep env db target st t).existing) ∧
    (∀ target st t, (t.sha1_hash != "") = true →
      (addStep env db target st t).res.added ≠ st.res.added →
      t.sha1_hash ∈ (addStep env db target st t).existing) ∧
    (∀ m cat c f, m.cat = some cat →
      env.fs c.file_path = some f →
      c.sha1_hash = sha1hex (packUInt32LE f.content.length ++ f.content.take 16384) →
      f.content.length < 4294967296 →
      (c.sha1_hash != "") = true →
      (strLower (pathSuffix c.file_path) == ".flac") = false →
      (cat.tracks.filterMap (fun tr => tr.userdata_sha1)).contains c.sha1_hash = false →
      ∃ m1, add_tracks env db m [c] none = (m1, .ok ⟨[(c.title, c.artist)], [], []⟩) ∧
        add_tracks env db m1 [c] none =
          (m1, .ok ⟨[], [(c.file_path, c.title, c.artist, "Already on iPod")], []⟩)) := by
  have hrv : ∀ t : Row, Row.get t "is_video" = none := fun _ => rfl
  have hvid : ∀ ts : List Row, (ts.any fun t => optPyTruthy (Row.get t "is_video")) = false := by
    intro ts
    rw [List.any_eq_false]
    intro t _
    rw [hrv t]
    simp [optPyTruthy]
  have shape : ∀ target st (t : Row) po,
      ((addWithPath env target st t po).existing = st.existing ∧
       (addWithPath env target st t po).res.added = st.res.added) ∨
      ((addWithPath env target st t po).existing =
         (if (t.sha1_hash != "") = true then st.existing ++ [t.sha1_hash]
          else st.existing) ∧
       (addWithPath env target st t po).res.added =
         st.res.added ++ [(t.title, t.artist)]) := by
    intro target st t po
    cases po with
    | none => exact .inl ⟨rfl, rfl⟩
    | some path =>
      rcases hdev : dev_new_Track env st.cat.nextId path with _ | tr
      · unfold addWithPath
        dsimp only
        rw [hdev]
        exact .inl ⟨rfl, rfl⟩
      · unfold addWithPath
        dsimp only
        rw [hdev]
        exact .inr ⟨rfl, rfl⟩
  refine ⟨addStep_dup env db, ?_, ?_, ?_⟩
  · intro target st t h' hm
    unfold addStep
    by_cases h1 : st.existing.contains t.sha1_hash = true
    · rw [if_pos h1]
      exact hm
    · rw [if_neg h1]
      dsimp only
      rcases shape target st t _ with ⟨he, -⟩ | ⟨he, -⟩
      · rw [he]
        exact hm
      · rw [he]
        split
        · exact List.mem_append_left _ hm
        · exact hm
  · intro target st t hne hch
    unfold addStep at hch ⊢
    by_cases h1 : st.existing.contains t.sha1_hash = true
    · rw [if_pos h1] at hch
      exact absurd rfl hch
    · rw [if_neg h1] at hch ⊢
      dsimp only at hch ⊢
      rcases shape target st t _ with ⟨-, ha⟩ | ⟨he, -⟩
      · exact absurd ha hch
      · rw [he, if_pos hne]
        exact List.mem_append_right _ (by simp)
  · intro m cat c f hc hfs hhash hsz hne hflac hcont
    have hsha : sha1_hash env c.file_path = .ok c.sha1_hash := by
      unfold sha1_hash
      rw [hfs]
      dsimp only
      rw [if_pos hsz, hhash]
    -- the device track created for c
    set tr : DTrack :=
      { dbid := cat.nextId
        title := (env.extract c.file_path).bind (fun mt => mt.title)
        artist := (env.extract c.file_path).bind (fun mt => mt.artist)
        album := (env.extract c.file_path).bind (fun mt => mt.album)
        userdata_sha1 := (sha1_hash env c.file_path).toOption
        mediatype := 0
        ipod_path := none } with htr
    have hud : tr.userdata_sha1 = some c.sha1_hash := by
      rw [htr]
      simp only [hsha, Except.toOption]
    set cat1 : Catalog :=
      { cat with tracks := cat.tracks ++ [tr], nextId := cat.nextId + 1 } with hcat1
    have hcall1 : add_tracks env db m [c] none =
        ({ m with cat := some cat1 }, .ok ⟨[(c.title, c.artist)], [], []⟩) := by
      unfold add_tracks
      rw [hc]
      dsimp only
      simp only [hvid, Bool.false_and, Bool.false_eq_true, if_false]
      rw [List.foldl_cons, List.foldl_nil,
        addStep_fresh env db ⟨cat, cat.tracks.filterMap (fun tr => tr.userdata_sha1),
          ⟨[], [], []⟩⟩ c f hcont hflac hfs hne]
      rfl
    have hcont1 : (cat1.tracks.filterMap
        (fun tr => tr.userdata_sha1)).contains c.sha1_hash = true := by
      apply List.elem_eq_true_of_mem
      rw [hcat1]
      rw [List.filterMap_append]
      apply List.mem_append_right
      rw [show List.filterMap (fun tr => tr.userdata_sha1) [tr] = [c.sha1_hash] by
        simp [List.filterMap_cons, hsha, Except.toOption]]
      exact List.mem_singleton_self _
    have hcall2 : add_tracks env db { m with cat := some cat1 } [c] none =
        ({ m with cat := some cat1 },
         .ok ⟨[], [(c.file_path, c.title, c.artist, "Already on iPod")], []⟩) := by
      unfold add_tracks
      dsimp only
      simp only [hvid, Bool.false_and, Bool.false_eq_true, if_false]
      rw [List.foldl_cons, List.foldl_nil,
        addStep_dup env db none ⟨cat1, cat1.tracks.filterMap (fun tr => tr.userdata_sha1),
          ⟨[], [], []⟩⟩ c hcont1]
      rfl
    exact ⟨{ m with cat := some cat1 }, hcall1, hcall2⟩

/-- Witness for C5: concrete duplicate skip, set monotonicity and
growth, and the two-call scenario on the empty device. -/
theorem add_tracks_duplicate_suppression_amended_witness :
    (addStep envW dbEmpty none stDup rowA =
      { stDup with res := { stDup.res with skipped_duplicates :=
          stDup.res.skipped_duplicates ++
            [(rowA.file_path, rowA.title, rowA.artist, "Already on iPod")] } }) ∧
    hashAB ∈ (addStep envW dbEmpty none stDup rowA).existing ∧
    rowA.sha1_hash ∈ (addStep envW dbEmpty none stFresh rowA).existing ∧
    (∃ m1, add_tracks envW dbEmpty mgrEmpty [rowA] none =
        (m1, .ok ⟨[(rowA.title, rowA.artist)], [], []⟩) ∧
      add_tracks envW dbEmpty m1 [rowA] none =
        (m1, .ok ⟨[], [(rowA.file_path, rowA.title, rowA.artist, "Already on iPod")],
          []⟩)) := by
  obtain ⟨h1, h2, h3, h4⟩ := add_tracks_duplicate_suppression_amended envW dbEmpty
  exact ⟨h1 none stDup rowA (by decide),
         h2 none stDup rowA hashAB (by decide),
         h3 none stFresh rowA (by decide) (by decide),
         h4 mgrEmpty catEmpty rowA fileA rfl (by decide) (by decide) (by decide)
           (by decide) (by decide) (by decide)⟩

/-- The original claim C5 fails on FLAC candidates: with transcoding
enabled (the default settings), adding the library FLAC `/lib/c.flac`
to an empty device succeeds, but the device track's stored fingerprint
is the transcoded temp file's, not the library row's, so a second,
separate `add_tracks` call on the resulting device re-adds the same
file (`added` nonempty, `skipped_duplicates` empty) instead of
reporting it as a skipped duplicate. -/
theorem add_tracks_flac_counterexample :
    (add_tracks envF dbEmpty mgrEmpty [rowF] none).2 =
      Except.ok ⟨[(rowF.title, rowF.artist)], [], []⟩ ∧
    (add_tracks envF dbEmpty
        (add_tracks envF dbEmpty mgrEmpty [rowF] none).1 [rowF] none).2 =
      Except.ok ⟨[(rowF.title, rowF.artist)], [], []⟩ := by
  decide

/-! ## Idempotent scan (C6): row-lookup and process inversion lemmas -/

/-- `find?` returns the head of the filtered list. -/
theorem find?_eq_head?_filter {α : Type} (p : α → Bool) (l : List α) :
    l.find? p = (l.filter p).head? := by
  induction l with
  | nil => rfl
  | cons hd tl ih =>
    cases hp : p hd with
    | true =>
      rw [List.find?_cons_of_pos _ hp, List.filter_cons_of_pos hp]
      rfl
    | false =>
      rw [List.find?_cons_of_neg _ (by simp [hp]), List.filter_cons_of_neg (by simp [hp]), ih]

/-- Rows surviving the delete-by-path filter never match that path. -/
theorem filter_ne_nil (l : List Row) (q : String) :
    (l.filter (fun r => r.file_path != q)).filter (fun r => r.file_path == q) = [] := by
  induction l with
  | nil => rfl
  | cons hd tl ih =>
    by_cases h : hd.file_path = q
    · have hb : (hd.file_path != q) = false := by simp [h]
      simp only [List.filter, hb]
      exact ih
    · have hb : (hd.file_path != q) = true := by
        rw [bne_iff_ne]
        exact h
      have hb2 : (hd.file_path == q) = false := by
        rw [beq_eq_false_iff_ne]
        exact h
      simp only [List.filter, hb, hb2]
      exact ih

/-- Deleting rows of one path leaves the rows of any other path alone. -/
theorem filter_comm_ne (l : List Row) (q p : String) (hne : p ≠ q) :
    (l.filter (fun r => r.file_path != q)).filter (fun r => r.file_path == p) =
      l.filter (fun r => r.file_path == p) := by
  induction l with
  | nil => rfl
  | cons hd tl ih =>
    by_cases h1 : hd.file_path = q
    · have hb : (hd.file_path != q) = false := by simp [h1]
      have hb2 : (hd.file_path == p) = false := by
        rw [beq_eq_false_iff_ne]
        exact fun hc => hne (hc ▸ h1)
      simp only [List.filter, hb, hb2]
      exact ih
    · have hb : (hd.file_path != q) = true := by
        rw [bne_iff_ne]
        exact h1
      cases h3 : (hd.file_path == p) with
      | true =>
        simp only [List.filter, hb, h3]
        rw [ih]
      | false =>
        simp only [List.filter, hb, h3]
        exact ih

/-- After an upsert, the rows of the upserted path are exactly the new
row. -/
theorem upsert_filter_self (db : LibDB) (td : TrackData) :
    (upsert_track db td).rows.filter (fun r => r.file_path == td.file_path) =
      [rowOfTd db.nextId td] := by
  unfold upsert_track
  dsimp only
  rw [List.filter_append, filter_ne_nil]
  have h5 : ((rowOfTd db.nextId td).file_path == td.file_path) = true := by simp [rowOfTd]
  simp [List.filter, h5]

/-- An upsert leaves the rows of every other path unchanged. -/
theorem upsert_filter_other (db : LibDB) (td : TrackData) (q : String)
    (h : q ≠ td.file_path) :
    (upsert_track db td).rows.filter (fun r => r.file_path == q) =
      db.rows.filter (fun r => r.file_path == q) := by
  unfold upsert_track
  dsimp only
  rw [List.filter_append, filter_comm_ne db.rows td.file_path q h]
  have h5 : ((rowOfTd db.nextId td).file_path == q) = false := by
    rw [beq_eq_false_iff_ne]
    intro hc
    exact h hc.symm
  simp [List.filter, h5]

/-- The cached mtime right after an upsert is the upserted mtime. -/
theorem get_cached_upsert (db : LibDB) (td : TrackData) :
    get_cached_mtime (upsert_track db td) td.file_path = some td.file_mtime := by
  unfold get_cached_mtime
  rw [find?_eq_head?_filter, upsert_filter_self]
  rfl

/-- Equal rows-of-path give equal cached mtimes. -/
theorem get_cached_eq (d1 d2 : LibDB) (p : String)
    (h : d1.rows.filter (fun r => r.file_path == p) =
      d2.rows.filter (fun r => r.file_path == p)) :
    get_cached_mtime d1 p = get_cached_mtime d2 p := by
  unfold get_cached_mtime
  rw [find?_eq_head?_filter, find?_eq_head?_filter, h]

/-- Full case analysis of `process_single_file`: either the store is
untouched (missing file, unparsable file, policy skip, or hash OSError),
or the file was upserted and had identifying metadata, was a podcast, or
the permissive setting was on. -/
theorem process_cases (env : Env) (db : LibDB) (p : String) (pod vid : Bool)
    (db' : LibDB) (st : ProcStatus)
    (h : process_single_file env db p pod vid = .ok (db', st)) :
    (db' = db ∧ env.fs p = none) ∨
    (db' = db ∧ env.extract p = none) ∨
    (db' = db ∧ ∃ mt, env.extract p = some mt ∧ metaHasMeta mt = false ∧ pod = false ∧
      get_setting db "allow_files_without_metadata" ≠ some "1") ∨
    (db' = db ∧ sha1_hash env p = .error .osError) ∨
    (∃ f mt hh, env.fs p = some f ∧ env.extract p = some mt ∧ sha1_hash env p = .ok hh ∧
      st = .added (scanTrackData env p f mt pod vid hh) ∧
      db' = upsert_track db (scanTrackData env p f mt pod vid hh) ∧
      (metaHasMeta mt = true ∨ pod = true ∨
        get_setting db "allow_files_without_metadata" = some "1")) := by
  unfold process_single_file at h
  rcases hfs : env.fs p with _ | f
  · rw [hfs] at h
    obtain ⟨h1, -⟩ : db = db' ∧ ProcStatus.errorStat = st := by simpa using h
    exact .inl ⟨h1.symm, rfl⟩
  · rw [hfs] at h
    dsimp only at h
    rcases hex : env.extract p with _ | mt
    · rw [hex] at h
      obtain ⟨h1, -⟩ : db = db' ∧ ProcStatus.errorParse = st := by simpa using h
      exact .inr (.inl ⟨h1.symm, rfl⟩)
    · rw [hex] at h
      dsimp only at h
      by_cases hskip : (!metaHasMeta mt && !pod &&
          decide (get_setting db "allow_files_without_metadata" ≠ some "1")) = true
      · rw [if_pos hskip] at h
        obtain ⟨h1, -⟩ : db = db' ∧ ProcStatus.skippedNoMeta = st := by simpa using h
        simp only [Bool.and_eq_true, Bool.not_eq_true', decide_eq_true_eq] at hskip
        exact .inr (.inr (.inl ⟨h1.symm, mt, rfl, hskip.1.1, hskip.1.2, hskip.2⟩))
      · rw [if_neg hskip] at h
        have hdisj : metaHasMeta mt = true ∨ pod = true ∨
            get_setting db "allow_files_without_metadata" = some "1" := by
          by_cases h1 : metaHasMeta mt = true
          · exact .inl h1
          · by_cases h2 : pod = true
            · exact .inr (.inl h2)
            · refine .inr (.inr ?_)
              have hmf : metaHasMeta mt = false := by
                rwa [Bool.not_eq_true] at h1
              have hpf : pod = false := by
                rwa [Bool.not_eq_true] at h2
              rw [hmf, hpf] at hskip
              simpa [not_not] using hskip
        cases hsha : sha1_hash env p with
        | error e =>
          rw [hsha] at h
          cases e with
          | osError =>
            obtain ⟨h1, -⟩ : db = db' ∧ ProcStatus.errorHash = st := by simpa using h
            exact .inr (.inr (.inr (.inl ⟨h1.symm, rfl⟩)))
          | structError => exact absurd h (by simp)
          | valueError => exact absurd h (by simp)
          | ipodError msg => exact absurd h (by simp)
        | ok hh =>
          rw [hsha] at h
          obtain ⟨h1, h2⟩ : upsert_track db (scanTrackData env p f mt pod vid hh) = db' ∧
              ProcStatus.added (scanTrackData env p f mt pod vid hh) = st := by simpa using h
          exact .inr (.inr (.inr (.inr ⟨f, mt, hh, rfl, rfl, rfl, h2.symm, h1.symm, hdisj⟩)))

/-- Equal settings tables give equal setting lookups. -/
theorem get_setting_congr (d1 d2 : LibDB) (h : d1.settings = d2.settings) (k : String) :
    get_setting d1 k = get_setting d2 k := by
  unfold get_setting
  rw [h]

/-- Two boolean filters over a list commute. -/
theorem filter_comm_ab {α : Type} (A B : α → Bool) (l : List α) :
    (l.filter A).filter B = (l.filter B).filter A := by
  induction l with
  | nil => rfl
  | cons hd tl ih =>
    cases hA : A hd <;> cases hB : B hd <;> simp only [List.filter, hA, hB, ih]

/-- Under the UNIQUE `file_path` constraint, the rows of a given path
form the empty list or a single row carrying that path. -/
theorem unique_filter_path (l : List Row) (p : String)
    (hnd : (l.map Row.file_path).Nodup) :
    l.filter (fun r => r.file_path == p) = [] ∨
    ∃ r, l.filter (fun r => r.file_path == p) = [r] ∧ r.file_path = p := by
  induction l with
  | nil => exact .inl rfl
  | cons hd tl ih =>
    have hnm : hd.file_path ∉ tl.map Row.file_path := (List.nodup_cons.mp (by simpa using hnd)).1
    have hnd2 : (tl.map Row.file_path).Nodup := (List.nodup_cons.mp (by simpa using hnd)).2
    by_cases h : hd.file_path = p
    · refine .inr ⟨hd, ?_, h⟩
      rw [List.filter_cons_of_pos (by simp [h])]
      have htl : tl.filter (fun r => r.file_path == p) = [] := by
        rw [List.filter_eq_nil_iff]
        intro a ha hc
        have hap : a.file_path = p := by simpa using hc
        have hmem := List.mem_map_of_mem Row.file_path ha
        rw [hap, ← h] at hmem
        exact hnm hmem
      rw [htl]
    · rw [List.filter_cons_of_neg (by simp [h])]
      exact ih hnd2

/-- A singleton rows-of-path set determines the cached mtime. -/
theorem get_cached_of_filter (d : LibDB) (p : String) (r : Row)
    (h : d.rows.filter (fun r => r.file_path == p) = [r]) :
    get_cached_mtime d p = some r.file_mtime := by
  unfold get_cached_mtime
  rw [find?_eq_head?_filter, h]
  rfl

/-- A cached-mtime hit on a UNIQUE-path table exhibits the single row of
that path. -/
theorem cached_singleton (d : LibDB) (p : String) (c : ℚ)
    (hup : (d.rows.map Row.file_path).Nodup)
    (h : get_cached_mtime d p = some c) :
    ∃ r, d.rows.filter (fun r => r.file_path == p) = [r] ∧ r.file_mtime = c ∧
      r.file_path = p ∧ r ∈ d.rows := by
  unfold get_cached_mtime at h
  rw [find?_eq_head?_filter] at h
  rcases unique_filter_path d.rows p hup with hnil | ⟨r, hr, hrp⟩
  · rw [hnil] at h
    simp at h
  · rw [hr] at h
    have hmt : r.file_mtime = c := by simpa using h
    have hmem : r ∈ d.rows.filter (fun r => r.file_path == p) := by
      rw [hr]
      exact List.mem_singleton.mpr rfl
    exact ⟨r, hr, hmt, hrp, (List.mem_filter.mp hmem).1⟩

/-- When every cached row's file still exists, the vanished-file cleanup
is the identity and removes nothing. -/
theorem remove_missing_eq_of_all (env : Env) (d : LibDB)
    (h : ∀ r ∈ d.rows, (env.fs r.file_path).isSome = true) :
    remove_missing_files env d = (d, 0) := by
  unfold remove_missing_files
  have h1 : d.rows.filter (fun r => (env.fs r.file_path).isSome) = d.rows :=
    List.filter_eq_self.mpr h
  have h2 : d.rows.filter (fun r => (env.fs r.file_path).isNone) = [] := by
    rw [List.filter_eq_nil_iff]
    intro a ha hc
    rw [Option.isNone_iff_eq_none] at hc
    have hs := h a ha
    rw [hc] at hs
    exact absurd hs (by simp)
  dsimp only
  rw [h1, h2]
  rfl

/-- When every cached row is a podcast row or has identifying metadata,
the no-metadata purge is the identity and removes nothing. -/
theorem purge_keep_of_all (d : LibDB)
    (h : ∀ r ∈ d.rows, (r.is_podcast != 0 || rowHasMeta r) = true) :
    remove_files_without_metadata_if_disabled d = (d, 0) := by
  unfold remove_files_without_metadata_if_disabled
  split
  · dsimp only
    have h1 : d.rows.filter (fun r => r.is_podcast != 0 || rowHasMeta r) = d.rows :=
      List.filter_eq_self.mpr h
    have h2 : d.rows.filter (fun r => !(r.is_podcast != 0 || rowHasMeta r)) = [] := by
      rw [List.filter_eq_nil_iff]
      intro a ha hc
      rw [h a ha] at hc
      exact absurd hc (by simp)
    rw [h1, h2]
    rfl
  · rfl

/-- A successful `process_single_file` call leaves the rows of every
other path untouched. -/
theorem process_filter_stable (env : Env) (db : LibDB) (x : String) (pod vid : Bool)
    (db' : LibDB) (st : ProcStatus) (q : String) (hq : q ≠ x)
    (h : process_single_file env db x pod vid = .ok (db', st)) :
    db'.rows.filter (fun r => r.file_path == q) =
      db.rows.filter (fun r => r.file_path == q) := by
  rcases process_cases env db x pod vid db' st h with
    ⟨h1, -⟩ | ⟨h1, -⟩ | ⟨h1, -⟩ | ⟨h1, -⟩ | ⟨f, mt, hh, -, -, -, -, h1, -⟩
  · rw [h1]
  · rw [h1]
  · rw [h1]
  · rw [h1]
  · rw [h1]
    exact upsert_filter_other db (scanTrackData env x f mt pod vid hh) q hq

/-- The walk loop leaves the rows of any path it does not visit, and the
settings table, unchanged. -/
theorem walkLoop_stable (env : Env) (pod vid : Bool) (total : Nat) (q : String) :
    ∀ files : List String, q ∉ files →
    ∀ scanned db evs muts db1 evs1 muts1,
      walkLoop env pod vid total files scanned db evs muts = .ok (db1, evs1, muts1) →
      db1.rows.filter (fun r => r.file_path == q) =
        db.rows.filter (fun r => r.file_path == q) ∧ db1.settings = db.settings := by
  intro files
  induction files with
  | nil =>
    intro _ scanned db evs muts db1 evs1 muts1 h
    obtain ⟨h1, -, -⟩ : db = db1 ∧ evs = evs1 ∧ muts = muts1 := by
      simp only [walkLoop] at h
      simpa using h
    subst h1
    exact ⟨rfl, rfl⟩
  | cons x rest ih =>
    intro hq scanned db evs muts db1 evs1 muts1 hwalk
    have hqr : q ∉ rest := fun hc => hq (List.mem_cons_of_mem x hc)
    simp only [walkLoop] at hwalk
    rcases hfsx : env.fs x with _ | fx
    · rw [hfsx] at hwalk
      exact ih hqr (scanned + 1) db evs muts db1 evs1 muts1 hwalk
    · rw [hfsx] at hwalk
      dsimp only at hwalk
      split at hwalk
      · exact ih hqr (scanned + 1) db _ muts db1 evs1 muts1 hwalk
      · rcases hproc : process_single_file env db x pod vid with e | ⟨db', st⟩
        · rw [hproc] at hwalk
          dsimp only at hwalk
          exact absurd hwalk (by simp)
        · rw [hproc] at hwalk
          dsimp only at hwalk
          have hqx : q ≠ x := fun hc => hq (hc ▸ List.mem_cons_self x rest)
          obtain ⟨ha, hb⟩ := ih hqr (scanned + 1) db' _ _ db1 evs1 muts1 hwalk
          exact ⟨ha.trans (process_filter_stable env db x pod vid db' st q hqx hproc),
            hb.trans (process_settings env db x pod vid db' st hproc)⟩

/-- Processing an inert existing file returns the database unchanged
with a status that is not an addition. -/
theorem process_inert_eq (env : Env) (db : LibDB) (p : String) (pod vid : Bool)
    (hin : InertFile env pod (get_setting db "allow_files_without_metadata") p)
    (f : PyFile) (hfs : env.fs p = some f) :
    ∃ st, process_single_file env db p pod vid = .ok (db, st) ∧
      (match st with | ProcStatus.added _ => (1 : Nat) | _ => 0) = 0 := by
  unfold InertFile at hin
  rcases hex : env.extract p with _ | mt
  · refine ⟨ProcStatus.errorParse, ?_, rfl⟩
    unfold process_single_file
    rw [hfs]
    dsimp only
    rw [hex]
  · rw [hex] at hin
    have hin' : metaHasMeta mt = false ∧ pod = false ∧
        get_setting db "allow_files_without_metadata" ≠ some "1" := hin
    obtain ⟨hm, hp, ha⟩ := hin'
    have hcond : (!metaHasMeta mt && !pod &&
        decide (get_setting db "allow_files_without_metadata" ≠ some "1")) = true := by
      rw [hm, hp]
      simp [ha]
    refine ⟨ProcStatus.skippedNoMeta, ?_, rfl⟩
    unfold process_single_file
    rw [hfs]
    dsimp only
    rw [hex]
    dsimp only
    rw [if_pos hcond]

/-- If every enumerated file is good for the current database, the walk
loop returns that database unchanged with no additional mutations. -/
theorem walkLoop_inert (env : Env) (pod vid : Bool) (total : Nat) (db : LibDB) :
    ∀ files : List String, (∀ p ∈ files, FileGood env db pod p) →
    ∀ scanned evs muts,
      ∃ evs1, walkLoop env pod vid total files scanned db evs muts = .ok (db, evs1, muts) := by
  intro files
  induction files with
  | nil => exact fun _ scanned evs muts => ⟨evs, rfl⟩
  | cons x rest ih =>
    intro hgood scanned evs muts
    have hgr : ∀ p ∈ rest, FileGood env db pod p :=
      fun p hp => hgood p (List.mem_cons_of_mem x hp)
    simp only [walkLoop]
    rcases hfsx : env.fs x with _ | fx
    · exact ih hgr (scanned + 1) evs muts
    · have hg := hgood x (List.mem_cons_self x rest) fx hfsx
      dsimp only
      rcases hg with ⟨c, hc, hlt⟩ | hin
      · have hskipb : (match get_cached_mtime db x with
            | some c => decide (|c - fx.mtime| < 1 / 100)
            | none => false) = true := by
          rw [hc]
          exact decide_eq_true hlt
        rw [if_pos hskipb]
        exact ih hgr (scanned + 1) _ muts
      · by_cases hskipb : (match get_cached_mtime db x with
            | some c => decide (|c - fx.mtime| < 1 / 100)
            | none => false) = true
        · rw [if_pos hskipb]
          exact ih hgr (scanned + 1) _ muts
        · rw [if_neg hskipb]
          obtain ⟨st, hproc, hst0⟩ := process_inert_eq env db x pod vid hin fx hfsx
          rw [hproc]
          dsimp only
          rw [hst0, Nat.add_zero]
          exact ih hgr (scanned + 1) _ muts

/-- A single surviving row of a path passes through the vanished-file
cleanup (its file exists) and the purge (it is kept, or the purge is
disabled by the permissive setting). -/
theorem surviving_filter (env : Env) (db1 db2x db3x : LibDB) (miss rem : Nat)
    (hrm : remove_missing_files env db1 = (db2x, miss))
    (hpg : remove_files_without_metadata_if_disabled db2x = (db3x, rem))
    (p : String) (r : Row) (f : PyFile)
    (h1 : db1.rows.filter (fun x => x.file_path == p) = [r])
    (hrp : r.file_path = p) (hfs : env.fs p = some f)
    (hkeep : get_setting db2x "allow_files_without_metadata" = some "1" ∨
      (r.is_podcast != 0 || rowHasMeta r) = true) :
    db3x.rows.filter (fun x => x.file_path == p) = [r] := by
  have h2 : db2x.rows.filter (fun x => x.file_path == p) = [r] := by
    have hrows2 : db2x.rows = db1.rows.filter (fun x => (env.fs x.file_path).isSome) := by
      have hb : (remove_missing_files env db1).1.rows =
          db1.rows.filter (fun x => (env.fs x.file_path).isSome) := rfl
      rw [hrm] at hb
      exact hb
    rw [hrows2, filter_comm_ab, h1]
    have hsome : (env.fs r.file_path).isSome = true := by
      rw [hrp, hfs]
      rfl
    simp [List.filter, hsome]
  by_cases hsetd : get_setting db2x "allow_files_without_metadata" ≠ some "1"
  · rcases hkeep with hset | hk
    · exact absurd hset hsetd
    · have hrows3 : db3x.rows =
          db2x.rows.filter (fun x => x.is_podcast != 0 || rowHasMeta x) := by
        have h0 := hpg
        unfold remove_files_without_metadata_if_disabled at h0
        rw [if_pos hsetd] at h0
        dsimp only at h0
        injection h0 with ha hb
        rw [← ha]
      rw [hrows3, filter_comm_ab, h2]
      simp [List.filter, hk]
  · have heq : db3x = db2x := by
      have h0 := hpg
      unfold remove_files_without_metadata_if_disabled at h0
      rw [if_neg hsetd] at h0
      injection h0 with ha hb
      exact ha.symm
    rw [heq]
    exact h2

/-- Per-file outcome of a completed first walk over pairwise-distinct
files: each existing file was either mtime-skipped (rows of its path
unchanged), upserted (its path now holds exactly the fresh row, which
passed the policy), or inert (unparsable or policy-skipped, rows
unchanged). -/
theorem walkLoop_pass1 (env : Env) (pod vid : Bool) (total : Nat) (allow : Option String) :
    ∀ files : List String, files.Nodup →
    ∀ scanned db evs muts db1 evs1 muts1,
      get_setting db "allow_files_without_metadata" = allow →
      walkLoop env pod vid total files scanned db evs muts = .ok (db1, evs1, muts1) →
      ∀ p ∈ files, ∀ f, env.fs p = some f →
        ((∃ c, get_cached_mtime db p = some c ∧ |c - f.mtime| < 1 / 100 ∧
           db1.rows.filter (fun r => r.file_path == p) =
             db.rows.filter (fun r => r.file_path == p)) ∨
         (∃ id mt hh, env.extract p = some mt ∧
           db1.rows.filter (fun r => r.file_path == p) =
             [rowOfTd id (scanTrackData env p f mt pod vid hh)] ∧
           (metaHasMeta mt = true ∨ pod = true ∨ allow = some "1")) ∨
         (InertFile env pod allow p ∧
           db1.rows.filter (fun r => r.file_path == p) =
             db.rows.filter (fun r => r.file_path == p))) := by
  intro files
  induction files with
  | nil =>
    intro _ scanned db evs muts db1 evs1 muts1 _ _ p hp
    exact absurd hp (List.not_mem_nil p)
  | cons x rest ih =>
    intro hnd scanned db evs muts db1 evs1 muts1 hsetdb hwalk p hp f hfs
    have hx : x ∉ rest := (List.nodup_cons.mp hnd).1
    have hndr : rest.Nodup := (List.nodup_cons.mp hnd).2
    simp only [walkLoop] at hwalk
    rcases hfsx : env.fs x with _ | fx
    · rcases List.mem_cons.mp hp with rfl | hpr
      · rw [hfsx] at hfs
        cases hfs
      · rw [hfsx] at hwalk
        exact ih hndr (scanned + 1) db evs muts db1 evs1 muts1 hsetdb hwalk p hpr f hfs
    · rw [hfsx] at hwalk
      dsimp only at hwalk
      split at hwalk
      · rename_i hskip
        rcases List.mem_cons.mp hp with rfl | hpr
        · have hff : fx = f := by
            rw [hfsx] at hfs
            exact Option.some.inj hfs
          subst hff
          obtain ⟨c, hgc, hlt⟩ : ∃ c, get_cached_mtime db p = some c ∧
              |c - fx.mtime| < 1 / 100 := by
            cases hgc : get_cached_mtime db p with
            | none =>
              rw [hgc] at hskip
              dsimp only at hskip
              simp at hskip
            | some c =>
              rw [hgc] at hskip
              dsimp only at hskip
              exact ⟨c, rfl, of_decide_eq_true hskip⟩
          obtain ⟨hstab, -⟩ := walkLoop_stable env pod vid total p rest hx
            (scanned + 1) db _ muts db1 evs1 muts1 hwalk
          exact .inl ⟨c, hgc, hlt, hstab⟩
        · exact ih hndr (scanned + 1) db _ muts db1 evs1 muts1 hsetdb hwalk p hpr f hfs
      · rcases hproc : process_single_file env db x pod vid with e | ⟨db', st⟩
        · rw [hproc] at hwalk
          dsimp only at hwalk
          exact absurd hwalk (by simp)
        · rw [hproc] at hwalk
          dsimp only at hwalk
          have hsets : db'.settings = db.settings :=
            process_settings env db x pod vid db' st hproc
          have hset' : get_setting db' "allow_files_without_metadata" = allow :=
            (get_setting_congr db' db hsets _).trans hsetdb
          rcases List.mem_cons.mp hp with rfl | hpr
          · rcases process_cases env db p pod vid db' st hproc with
              ⟨h1, hfn⟩ | ⟨h1, hexn⟩ | ⟨h1, mt, hexs, hm, hpodf, hal⟩ | ⟨h1, hsha⟩ |
              ⟨f', mt, hh, hfsp, hexs, hsha, hst, hdb', hdisj⟩
            · rw [hfn] at hfsx
              cases hfsx
            · obtain ⟨hstab, -⟩ := walkLoop_stable env pod vid total p rest hx
                (scanned + 1) db' _ _ db1 evs1 muts1 hwalk
              refine .inr (.inr ⟨?_, hstab.trans (by rw [h1])⟩)
              unfold InertFile
              rw [hexn]
              trivial
            · obtain ⟨hstab, -⟩ := walkLoop_stable env pod vid total p rest hx
                (scanned + 1) db' _ _ db1 evs1 muts1 hwalk
              refine .inr (.inr ⟨?_, hstab.trans (by rw [h1])⟩)
              unfold InertFile
              rw [hexs]
              exact ⟨hm, hpodf, fun hc => hal (hsetdb.trans hc)⟩
            · exfalso
              unfold sha1_hash at hsha
              rw [hfsx] at hsha
              dsimp only at hsha
              split at hsha
              · exact absurd hsha (by simp)
              · exact absurd hsha (by simp)
            · have hff : f' = f := by
                rw [hfs] at hfsp
                exact (Option.some.inj hfsp).symm
              subst hff
              obtain ⟨hstab, -⟩ := walkLoop_stable env pod vid total p rest hx
                (scanned + 1) db' _ _ db1 evs1 muts1 hwalk
              refine .inr (.inl ⟨db.nextId, mt, hh, hexs, ?_, ?_⟩)
              · rw [hstab, hdb']
                exact upsert_filter_self db (scanTrackData env p f' mt pod vid hh)
              · rcases hdisj with h | h | h
                · exact .inl h
                · exact .inr (.inl h)
                · exact .inr (.inr (hsetdb.symm.trans h))
          · have hpx : p ≠ x := fun hc => hx (hc ▸ hpr)
            have hstab1 : db'.rows.filter (fun r => r.file_path == p) =
                db.rows.filter (fun r => r.file_path == p) :=
              process_filter_stable env db x pod vid db' st p hpx hproc
            rcases ih hndr (scanned + 1) db' _ _ db1 evs1 muts1 hset' hwalk p hpr f hfs with
              ⟨c, hgc, hlt, hfilt⟩ | ⟨id, mt, hh, hexs, hfilt, hdisj⟩ | ⟨hin, hfilt⟩
            · exact .inl ⟨c, (get_cached_eq db db' p hstab1.symm).trans hgc, hlt,
                hfilt.trans hstab1⟩
            · exact .inr (.inl ⟨id, mt, hh, hexs, hfilt, hdisj⟩)
            · exact .inr (.inr ⟨hin, hfilt.trans hstab1⟩)

/-- Claim C6: a file whose cached mtime matches the on-disk mtime within
the 0.01 epsilon is skipped by the walk with no Cache Store mutation (the
step only advances the progress counter), and scanning an unchanged tree
a second time performs no Cache Store mutations at all: the second run
returns the same database with mutation count zero.  Hypotheses: the
root is a directory, enumerated file sizes fit 32 bits, the walk
enumerates distinct paths, the cache respects the UNIQUE `file_path`
constraint, and cached no-metadata rows are coherent with the current
extractor output (`Coherent`). -/
theorem scan_mtime_skip_and_idempotent (env : Env) (db : LibDB) (pod vid : Bool)
    (hdir : env.rootIsDir = true)
    (hsz : SizesOk env (scanFiles env vid))
    (hnd : (scanFiles env vid).Nodup)
    (hup : (db.rows.map Row.file_path).Nodup)
    (hcoh : Coherent env db pod) :
    (∀ (total : Nat) (p : String) (rest : List String) (scanned : Nat) (dbx : LibDB)
        (evs : List Event) (muts : Nat) (f : PyFile) (c : ℚ),
        env.fs p = some f → get_cached_mtime dbx p = some c → |c - f.mtime| < 1 / 100 →
        walkLoop env pod vid total (p :: rest) scanned dbx evs muts =
          walkLoop env pod vid total rest (scanned + 1) dbx
            (if (scanned + 1) % 10 = 0 then evs ++ [(scanned + 1, total, p)] else evs)
            muts) ∧
    (∃ out out2, scan_directory env db pod vid = .ok out ∧
      scan_directory env out.db pod vid = .ok out2 ∧
      out2.db = out.db ∧ out2.muts = 0) := by
  constructor
  · intro total p rest scanned dbx evs muts f c hfsp hc hlt
    simp only [walkLoop]
    rw [hfsp]
    dsimp only
    have hskipb : (match get_cached_mtime dbx p with
        | some c => decide (|c - f.mtime| < 1 / 100)
        | none => false) = true := by
      rw [hc]
      exact decide_eq_true hlt
    rw [if_pos hskipb]
  · obtain ⟨db1, evs1, muts1, hwalk, hset1⟩ :=
      walkLoop_ok env pod vid (scanFiles env vid).length (scanFiles env vid) db [] 0 0 hsz
    obtain ⟨db2x, miss, hrm⟩ : ∃ d m, remove_missing_files env db1 = (d, m) := ⟨_, _, rfl⟩
    obtain ⟨db3x, rem, hpg⟩ :
        ∃ d m, remove_files_without_metadata_if_disabled db2x = (d, m) := ⟨_, _, rfl⟩
    have hs2 : db2x.settings = db1.settings := by
      have hb : (remove_missing_files env db1).1.settings = db1.settings := rfl
      rw [hrm] at hb
      exact hb
    have hs3 : db3x.settings = db2x.settings := by
      have hb := purge_settings db2x
      rw [hpg] at hb
      exact hb
    have hsdb3 : db3x.settings = db.settings := by rw [hs3, hs2, hset1]
    have hget3 : get_setting db3x "allow_files_without_metadata" =
        get_setting db "allow_files_without_metadata" := get_setting_congr _ _ hsdb3 _
    have hget2 : get_setting db2x "allow_files_without_metadata" =
        get_setting db "allow_files_without_metadata" :=
      get_setting_congr _ _ (by rw [hs2, hset1]) _
    have hmem3 : ∀ r ∈ db3x.rows, r ∈ db2x.rows ∧
        (get_setting db2x "allow_files_without_metadata" ≠ some "1" →
          r.is_podcast = 0 → rowHasMeta r = true) := by
      intro r hr
      exact purge_mem db2x r (by rw [hpg]; exact hr)
    have hmem2 : ∀ r ∈ db2x.rows, r ∈ db1.rows ∧ (env.fs r.file_path).isSome = true := by
      intro r hr
      exact remove_missing_mem env db1 r (by rw [hrm]; exact hr)
    have hrowsB : ∀ r ∈ db3x.rows, (env.fs r.file_path).isSome = true :=
      fun r hr => (hmem2 r (hmem3 r hr).1).2
    have hrm2 : remove_missing_files env db3x = (db3x, 0) :=
      remove_missing_eq_of_all env db3x hrowsB
    have hpurge2 : remove_files_without_metadata_if_disabled db3x = (db3x, 0) := by
      by_cases hsetone : get_setting db "allow_files_without_metadata" = some "1"
      · unfold remove_files_without_metadata_if_disabled
        rw [if_neg (fun hc => hc (hget3.trans hsetone))]
      · refine purge_keep_of_all db3x ?_
        intro r hr
        by_cases hpodz : r.is_podcast = 0
        · have hmr := (hmem3 r hr).2 (fun hc => hsetone (hget2.symm.trans hc)) hpodz
          simp [hmr]
        · have hbne : (r.is_podcast != 0) = true := by rwa [bne_iff_ne]
          simp [hbne]
    have hgood : ∀ p ∈ scanFiles env vid, FileGood env db3x pod p := by
      intro p hp
      unfold FileGood
      intro f hfs
      rcases walkLoop_pass1 env pod vid (scanFiles env vid).length
          (get_setting db "allow_files_without_metadata") (scanFiles env vid) hnd
          0 db [] 0 db1 evs1 muts1 rfl hwalk p hp f hfs with
        ⟨c, hgc, hlt, hfilt⟩ | ⟨id, mt, hh, hexs, hfilt, hdisj⟩ | ⟨hin, hfilt⟩
      · obtain ⟨r, hrfilt, hrmt, hrpath, hrmem⟩ := cached_singleton db p c hup hgc
        have h1 : db1.rows.filter (fun x => x.file_path == p) = [r] := by
          rw [hfilt, hrfilt]
        by_cases hkeepc : get_setting db2x "allow_files_without_metadata" = some "1" ∨
            (r.is_podcast != 0 || rowHasMeta r) = true
        · left
          have h3 := surviving_filter env db1 db2x db3x miss rem hrm hpg p r f
            h1 hrpath hfs hkeepc
          exact ⟨r.file_mtime, get_cached_of_filter db3x p r h3, by rw [hrmt]; exact hlt⟩
        · push_neg at hkeepc
          obtain ⟨hsetne, hkf⟩ := hkeepc
          have hkf' : (r.is_podcast != 0 || rowHasMeta r) = false := by
            cases hv : (r.is_podcast != 0 || rowHasMeta r)
            · rfl
            · exact absurd hv hkf
          have hpodz : r.is_podcast = 0 := by
            by_contra hc2
            have hbne : (r.is_podcast != 0) = true := by rwa [bne_iff_ne]
            rw [hbne] at hkf'
            simp at hkf'
          have hmf : rowHasMeta r = false := by
            cases hv : rowHasMeta r
            · rfl
            · rw [hv] at hkf'
              simp at hkf'
          have hcoh' := hcoh r hrmem hpodz hmf
          rw [hrpath, hfs] at hcoh'
          have hcc : pod = false ∧
              OptProp (env.extract p) (fun mt => metaHasMeta mt = false) := by
            refine hcoh' ?_
            rw [hrmt]
            exact hlt
          obtain ⟨hpodF, hexm⟩ := hcc
          right
          unfold InertFile
          rcases hex : env.extract p with _ | mt
          · trivial
          · rw [hex] at hexm
            have hexm' : metaHasMeta mt = false := hexm
            show metaHasMeta mt = false ∧ pod = false ∧
              get_setting db3x "allow_files_without_metadata" ≠ some "1"
            refine ⟨hexm', hpodF, ?_⟩
            rw [hget3]
            exact fun hc2 => hsetne (hget2.trans hc2)
      · left
        have hrp2 : (rowOfTd id (scanTrackData env p f mt pod vid hh)).file_path = p := rfl
        have hmt2 : (rowOfTd id (scanTrackData env p f mt pod vid hh)).file_mtime =
            f.mtime := rfl
        have hkeepc : get_setting db2x "allow_files_without_metadata" = some "1" ∨
            ((rowOfTd id (scanTrackData env p f mt pod vid hh)).is_podcast != 0 ||
              rowHasMeta (rowOfTd id (scanTrackData env p f mt pod vid hh))) = true := by
          rcases hdisj with hm | hpodt | hall
          · right
            have hrq : rowHasMeta (rowOfTd id (scanTrackData env p f mt pod vid hh)) =
                metaHasMeta mt := rfl
            rw [hrq, hm]
            simp
          · right
            have hpq : (rowOfTd id (scanTrackData env p f mt pod vid hh)).is_podcast =
                1 := by
              simp [rowOfTd, scanTrackData, hpodt]
            rw [hpq]
            have h19 : ((1 : Int) != 0) = true := by decide
            rw [h19]
            simp
          · exact .inl (hget2.trans hall)
        have h3 := surviving_filter env db1 db2x db3x miss rem hrm hpg p
          (rowOfTd id (scanTrackData env p f mt pod vid hh)) f hfilt hrp2 hfs hkeepc
        refine ⟨f.mtime, ?_, by rw [sub_self, abs_zero]; norm_num⟩
        have hgc3 := get_cached_of_filter db3x p _ h3
        rw [hmt2] at hgc3
        exact hgc3
      · right
        rw [hget3]
        exact hin
    obtain ⟨evs2, hwalk2⟩ := walkLoop_inert env pod vid (scanFiles env vid).length db3x
      (scanFiles env vid) hgood 0 [] 0
    have hout : scan_directory env db pod vid = .ok
        ⟨db3x,
          (if rem > 0 then
            evs1 ++ [((scanFiles env vid).length, (scanFiles env vid).length,
              "Removed " ++ toString rem ++ " files without metadata")]
          else evs1) ++
            [((scanFiles env vid).length, (scanFiles env vid).length, "Done")],
          muts1 + miss + rem⟩ := by
      unfold scan_directory
      rw [hdir]
      dsimp only
      rw [hwalk]
      dsimp only
      rw [hrm]
      dsimp only
      rw [hpg]
      rfl
    have hout2 : scan_directory env db3x pod vid = .ok
        ⟨db3x, evs2 ++ [((scanFiles env vid).length, (scanFiles env vid).length, "Done")],
          0⟩ := by
      unfold scan_directory
      rw [hdir]
      dsimp only
      rw [hwalk2]
      dsimp only
      rw [hrm2]
      dsimp only
      rw [hpurge2]
      dsimp only
      rw [if_neg (by decide : ¬((0 : Nat) > 0))]
      rfl
    exact ⟨_, _, hout, hout2, rfl, rfl⟩

/-- Witness for C6: scanning the concrete two-file library twice from an
empty cache, plus the universally quantified mtime-skip step equation. -/
theorem scan_mtime_skip_and_idempotent_witness :
    (∀ (total : Nat) (p : String) (rest : List String) (scanned : Nat) (dbx : LibDB)
        (evs : List Event) (muts : Nat) (f : PyFile) (c : ℚ),
        envW.fs p = some f → get_cached_mtime dbx p = some c → |c - f.mtime| < 1 / 100 →
        walkLoop envW false false total (p :: rest) scanned dbx evs muts =
          walkLoop envW false false total rest (scanned + 1) dbx
            (if (scanned + 1) % 10 = 0 then evs ++ [(scanned + 1, total, p)] else evs)
            muts) ∧
    (∃ out out2, scan_directory envW dbEmpty false false = .ok out ∧
      scan_directory envW out.db false false = .ok out2 ∧
      out2.db = out.db ∧ out2.muts = 0) :=
  scan_mtime_skip_and_idempotent envW dbEmpty false false rfl (by decide) (by decide)
    (by decide) (by decide)

end WebPod
